import Mathlib

/-!
Shallow embedding of the command validation / completion / highlighting
engine of `src/minecraft/spyglass.ts` (class `SpyglassManager`), together
with theorems settling the frozen claims about it.

Strings are modelled as `List Char`; JavaScript `Map`s and `Record`s are
modelled as association lists in insertion order; the `while` loops of the
source are modelled with an explicit fuel argument (structural recursion),
returning `none` when the fuel runs out — enough fuel makes the embedding
agree with a terminating run of the source, and a loop that returns `none`
for every fuel models a non-terminating run.
-/

namespace Comet

abbrev Str := List Char

/-- JavaScript whitespace (the ASCII part), as used by `String.prototype.trim`. -/
def isJsWs (c : Char) : Bool :=
  c = ' ' || c = '\t' || c = '\n' || c = '\r' || c = '\x0b' || c = '\x0c'

/-- `String.prototype.trim`: whitespace removed from both ends. -/
def jsTrim (s : Str) : Str :=
  ((s.dropWhile isJsWs).reverse.dropWhile isJsWs).reverse

/-- `a.startsWith b`. -/
def jsStartsWith (s pre : Str) : Bool := pre.isPrefixOf s

/-- `a.endsWith b`. -/
def jsEndsWith (s suf : Str) : Bool := suf.isSuffixOf s

/-- `a.includes b`: substring containment. -/
def containsSub : Str → Str → Bool
  | _, [] => true
  | [], _ => false
  | c :: rest, pat => pat.isPrefixOf (c :: rest) || containsSub rest pat

/-- Remove the first occurrence of `pat` from `s` (JavaScript
`s.replace(pat, "")` with a plain-string pattern). -/
def removeFirstOcc : Str → Str → Str
  | s, [] => s
  | [], _ => []
  | c :: rest, pat =>
    if pat.isPrefixOf (c :: rest) then (c :: rest).drop pat.length
    else c :: removeFirstOcc rest pat

/-- `s.replace(/^pre/, "")`: strip `pre` when it is a prefix. -/
def stripPrefixStr (pre s : Str) : Str :=
  if pre.isPrefixOf s then s.drop pre.length else s

/-- `s.split(sep)` for a one-character separator (JavaScript semantics:
`"".split(sep)` is `[""]`, separators at the ends produce empty pieces). -/
def jsSplit (sep : Char) : Str → List Str
  | [] => [[]]
  | c :: rest =>
    if c = sep then [] :: jsSplit sep rest
    else match jsSplit sep rest with
      | [] => [[c]]
      | p :: ps => (c :: p) :: ps

/-- `s.split("..")` (the only multi-character split the source performs). -/
def splitDotDot : Str → List Str
  | [] => [[]]
  | '.' :: '.' :: rest => [] :: splitDotDot rest
  | c :: rest =>
    match splitDotDot rest with
    | [] => [[c]]
    | p :: ps => (c :: p) :: ps

/-- `arr.join(sep)`. -/
def joinSep (sep : Str) : List Str → Str
  | [] => []
  | [x] => x
  | x :: xs => x ++ sep ++ joinSep sep xs

/-- Truncate at the first occurrence of character `c`
(JavaScript `s.replace(/\[.*$/, "")` style). -/
def truncAtChar (c : Char) : Str → Str
  | [] => []
  | d :: rest => if d = c then [] else d :: truncAtChar c rest

def isDigitCh (c : Char) : Bool := '0' ≤ c && c ≤ '9'
def isLowerCh (c : Char) : Bool := 'a' ≤ c && c ≤ 'z'
def isUpperCh (c : Char) : Bool := 'A' ≤ c && c ≤ 'Z'
def isAlphaCh (c : Char) : Bool := isLowerCh c || isUpperCh c

/-- `/^-?\d+$/` (brigadier integer syntax). -/
def intRe (s : Str) : Bool :=
  match s with
  | '-' :: rest => rest ≠ [] && rest.all isDigitCh
  | _ => s ≠ [] && s.all isDigitCh

/-- `/^\d+$/` helper: one or more digits. -/
def digits1 (s : Str) : Bool := s ≠ [] && s.all isDigitCh

/-- `/^-?\d+(\.\d+)?$/` (brigadier float/double syntax). -/
def numRe (s : Str) : Bool :=
  let body := match s with
    | '-' :: rest => rest
    | _ => s
  match jsSplit '.' body with
  | [a] => digits1 a
  | [a, b] => digits1 a && digits1 b
  | _ => false

/-- `/^[a-zA-Z0-9_]+$/` (identifier-safe player name). -/
def identRe (s : Str) : Bool :=
  s ≠ [] && s.all (fun c => isAlphaCh c || isDigitCh c || c = '_')

/-- `/^-?\d+(\.\d+)?[bslfd]?$/i` (numeric literal with optional type suffix). -/
def numSuffixRe (s : Str) : Bool :=
  let noSuffix :=
    match s.reverse with
    | c :: front =>
      if c = 'b' || c = 's' || c = 'l' || c = 'f' || c = 'd'
          || c = 'B' || c = 'S' || c = 'L' || c = 'F' || c = 'D'
      then front.reverse else s
    | [] => s
  numRe noSuffix && s ≠ []

/-- Association-list lookup (JavaScript `obj[key]` / `map.get(key)`). -/
def lookupAssoc {α : Type} (l : List (Str × α)) (k : Str) : Option α :=
  match l with
  | [] => none
  | (k', v) :: rest => if k' = k then some v else lookupAssoc rest k

/-- List membership test for `Str` keys (JavaScript `Set.has` / `includes`). -/
def listMem (l : List Str) (k : Str) : Bool := l.any (· = k)

/-! ## Data model (`CommandNode`, `SpyglassManager` state, result records) -/

inductive NodeType where
  | root
  | literal
  | argument
deriving DecidableEq, Repr

/-- A node of the command tree (`interface CommandNode` of the source).
`children` is an association list in insertion order (a JavaScript
`Record<string, CommandNode>`, a missing record modelled as `[]`);
`propRegistry` models the only field of `properties` the engine reads
(`node.properties?.registry`). -/
inductive CommandNode where
  | mk (type : NodeType) (children : List (Str × CommandNode))
      (executable : Bool) (parser : Option Str)
      (propRegistry : Option Str) (redirect : Option (List Str))

def CommandNode.type : CommandNode → NodeType
  | .mk t _ _ _ _ _ => t

def CommandNode.children : CommandNode → List (Str × CommandNode)
  | .mk _ ch _ _ _ _ => ch

def CommandNode.executable : CommandNode → Bool
  | .mk _ _ e _ _ _ => e

def CommandNode.parser : CommandNode → Option Str
  | .mk _ _ _ p _ _ => p

def CommandNode.propRegistry : CommandNode → Option Str
  | .mk _ _ _ _ r _ => r

def CommandNode.redirect : CommandNode → Option (List Str)
  | .mk _ _ _ _ _ r => r

/-- Structural equality of nodes, modelling the reference comparison
`currentNodes[0] !== this.commandTree` of the source (a strict subnode of a
finite tree is never structurally equal to the whole tree, so structural
equality decides that comparison the same way). -/
def beqNode : CommandNode → CommandNode → Bool
  | .mk t1 ch1 e1 p1 q1 r1, .mk t2 ch2 e2 p2 q2 r2 =>
    t1 = t2 && e1 = e2 && p1 = p2 && q1 = q2 && r1 = r2 && beqChildren ch1 ch2
where beqChildren : List (Str × CommandNode) → List (Str × CommandNode) → Bool
  | [], [] => true
  | (k1, v1) :: l1, (k2, v2) :: l2 => k1 = k2 && beqNode v1 v2 && beqChildren l1 l2
  | _, _ => false

/-- `node.children[key]` (record lookup; `undefined` children behave as `{}`). -/
def childLookup (n : CommandNode) (key : Str) : Option CommandNode :=
  lookupAssoc n.children key

inductive Severity where
  | error
  | warning
  | info
deriving DecidableEq, Repr

/-- `CommandValidationError` of the source. -/
structure CmdErr where
  start : Nat
  length : Nat
  message : Str
  severity : Severity
deriving DecidableEq, Repr

/-- A semantic token (`{start, length, tokenType, tokenModifiers}`);
`tokenModifiers` is always `[]` in the source and is omitted. -/
structure SemTok where
  start : Nat
  length : Nat
  tokenType : Str
deriving DecidableEq, Repr

/-- A token with its range, produced by `tokenizeWithRanges`. -/
structure RangeTok where
  value : Str
  start : Nat
  length : Nat
deriving DecidableEq, Repr

inductive CompKind where
  | keyword
  | value
  | property
  | enumMember
  | snippet
  | color
deriving DecidableEq, Repr

/-- A completion item; fields the source leaves out of a pushed object are `none`. -/
structure CompItem where
  label : Str
  kind : CompKind
  detail : Option Str
  insertText : Option Str
  sortText : Option Str
deriving DecidableEq, Repr

/-- The mutable state of `SpyglassManager` that the embedded operations read
or write: the grammar snapshot and the semantic-token cache. -/
structure Spyglass where
  initialized : Bool
  commandTree : Option CommandNode
  registries : List (Str × List Str)
  commandTokensCache : List (Str × List SemTok)

/-- `MAX_CACHE_SIZE` of the source. -/
def MAX_CACHE_SIZE : Nat := 100

/-! ## Parser tables -/

/-- `REGISTRY_PROPERTY_PARSERS` of the source. -/
def REGISTRY_PROPERTY_PARSERS : List Str :=
  [ "minecraft:resource_key".data
  , "minecraft:resource".data
  , "minecraft:resource_or_tag".data
  , "minecraft:resource_or_tag_key".data
  , "minecraft:resource_selector".data ]

/-- `getParserTokenCount` of the source. -/
def getParserTokenCount (parser : Str) : Nat :=
  if parser = "minecraft:block_pos".data ∨ parser = "minecraft:vec3".data then 3
  else if parser = "minecraft:column_pos".data ∨ parser = "minecraft:vec2".data
      ∨ parser = "minecraft:rotation".data then 2
  else 1

/-- `isCoordinateParser` of the source. -/
def isCoordinateParser (parser : Str) : Bool :=
  getParserTokenCount parser > 1

/-- `registryMap` of the source (parser id → registry key; `""` values mark
parsers that must not fall through to the bare-suffix lookup). -/
def registryMap : List (Str × Str) :=
  [ ("minecraft:item_stack".data, "item".data)
  , ("minecraft:item_predicate".data, "item".data)
  , ("minecraft:block_state".data, "block".data)
  , ("minecraft:block_predicate".data, "block".data)
  , ("minecraft:entity_summon".data, "entity_type".data)
  , ("minecraft:mob_effect".data, "mob_effect".data)
  , ("minecraft:enchantment".data, "enchantment".data)
  , ("minecraft:particle".data, "particle_type".data)
  , ("minecraft:attribute".data, "attribute".data)
  , ("minecraft:dimension".data, "dimension".data)
  , ("minecraft:game_profile".data, [])
  , ("minecraft:score_holder".data, [])
  , ("minecraft:resource_location".data, [])
  , ("minecraft:function".data, "function".data)
  , ("minecraft:time".data, [])
  , ("minecraft:uuid".data, [])
  , ("minecraft:color".data, [])
  , ("minecraft:swizzle".data, [])
  , ("minecraft:team".data, [])
  , ("minecraft:objective".data, [])
  , ("minecraft:loot_table".data, "loot_table".data)
  , ("minecraft:recipe".data, "recipe".data)
  , ("minecraft:advancement".data, "advancement".data)
  , ("minecraft:sound".data, "sound_event".data)
  , ("minecraft:fluid".data, "fluid".data)
  , ("minecraft:potion".data, "potion".data)
  , ("minecraft:sound_event".data, "sound_event".data) ]

/-- `resourceLocationRegistryMap` of the source (argument-name heuristic). -/
def resourceLocationRegistryMap : List (Str × Str) :=
  [ ("advancement".data, "advancement".data)
  , ("loot_table".data, "loot_table".data)
  , ("predicate".data, "predicate".data)
  , ("recipe".data, "recipe".data)
  , ("structure".data, "structure".data) ]

/-! ## Primary tokenizer -/

/-- The escape test `text[i - 1] !== "\\\\"` of both tokenizers: the
one-character string `text[i - 1]` is compared against the two-character
literal `"\\\\"` (backslash backslash), which no single character ever
equals; `undefined !== "\\\\"` (at `i = 0`) is also true. -/
def prevNotEscapePair (prev : Option Char) : Bool :=
  match prev with
  | some p => [p] ≠ ['\\', '\\']
  | none => true

/-- One step per character of the `tokenize` loop. `prev` is `text[i - 1]`
(`none` at `i = 0`). -/
def tokenizeAux : Str → Option Char → Str → Bool → Int → List Str → List Str
  | [], _, current, _, _, tokens =>
    if current.length > 0 then tokens ++ [current] else tokens
  | c :: rest, prev, current, inString, braceDepth, tokens =>
    if c = '"' ∧ prevNotEscapePair prev then
      tokenizeAux rest (some c) (current ++ [c]) (!inString) braceDepth tokens
    else if inString then
      tokenizeAux rest (some c) (current ++ [c]) inString braceDepth tokens
    else if c = '{' ∨ c = '[' then
      tokenizeAux rest (some c) (current ++ [c]) inString (braceDepth + 1) tokens
    else if c = '}' ∨ c = ']' then
      tokenizeAux rest (some c) (current ++ [c]) inString (braceDepth - 1) tokens
    else if c = ' ' ∧ braceDepth = 0 then
      if current.length > 0 then
        tokenizeAux rest (some c) [] inString braceDepth (tokens ++ [current])
      else
        tokenizeAux rest (some c) current inString braceDepth tokens
    else
      tokenizeAux rest (some c) (current ++ [c]) inString braceDepth tokens

/-- `tokenize` of the source: split on spaces outside quotes and braces. -/
def tokenize (text : Str) : List Str :=
  tokenizeAux text none [] false 0 []

/-- One step per character of the `tokenizeWithRanges` loop; `i` is the
character index, `startIndex = none` models the `-1` sentinel. -/
def tokenizeWithRangesAux :
    Str → Nat → Option Char → Str → Option Nat → Bool → Int → List RangeTok → List RangeTok
  | [], _, _, current, startIndex, _, _, tokens =>
    if current.length > 0 then
      tokens ++ [⟨current, startIndex.getD 0, current.length⟩]
    else tokens
  | c :: rest, i, prev, current, startIndex, inString, braceDepth, tokens =>
    let startIndex := if startIndex = none ∧ c ≠ ' ' then some i else startIndex
    if c = '"' ∧ prevNotEscapePair prev then
      tokenizeWithRangesAux rest (i + 1) (some c) (current ++ [c]) startIndex (!inString) braceDepth tokens
    else if inString then
      tokenizeWithRangesAux rest (i + 1) (some c) (current ++ [c]) startIndex inString braceDepth tokens
    else if c = '{' ∨ c = '[' then
      tokenizeWithRangesAux rest (i + 1) (some c) (current ++ [c]) startIndex inString (braceDepth + 1) tokens
    else if c = '}' ∨ c = ']' then
      tokenizeWithRangesAux rest (i + 1) (some c) (current ++ [c]) startIndex inString (braceDepth - 1) tokens
    else if c = ' ' ∧ braceDepth = 0 then
      if current.length > 0 then
        tokenizeWithRangesAux rest (i + 1) (some c) [] none inString braceDepth
          (tokens ++ [⟨current, startIndex.getD 0, current.length⟩])
      else
        tokenizeWithRangesAux rest (i + 1) (some c) current startIndex inString braceDepth tokens
    else
      if startIndex.isSome then
        tokenizeWithRangesAux rest (i + 1) (some c) (current ++ [c]) startIndex inString braceDepth tokens
      else
        tokenizeWithRangesAux rest (i + 1) (some c) current startIndex inString braceDepth tokens

/-- `tokenizeWithRanges` of the source. -/
def tokenizeWithRanges (text : Str) : List RangeTok :=
  tokenizeWithRangesAux text 0 none [] none false 0 []

/-! ## Redirect resolution, registry resolution, per-argument validation -/

/-- `resolveRedirect` of the source: follow the path of child names from the
root of `tree`; an empty path or a missing name yields `none`. -/
def resolveRedirect (tree : CommandNode) (path : List Str) : Option CommandNode :=
  go tree.children path none
where go : List (Str × CommandNode) → List Str → Option CommandNode → Option CommandNode
  | _, [], found => found
  | nodes, key :: rest, _ =>
    match lookupAssoc nodes key with
    | some n => go n.children rest (some n)
    | none => none

/-- The redirect handling both walkers perform on a matched node:
`if (node.redirect) { const r = resolveRedirect(...); if (r) target = r }` —
an unresolved redirect leaves the node itself as the target. -/
def redirTarget (tree : CommandNode) (node : CommandNode) : CommandNode :=
  match node.redirect with
  | some path =>
    match resolveRedirect tree path with
    | some r => r
    | none => node
  | none => node

/-- `resolveRegistryKey` of the source. -/
def resolveRegistryKey (regs : List (Str × List Str)) (node : CommandNode)
    (nodeName : Str) : Option Str :=
  match node.parser with
  | none => none
  | some parser =>
    if listMem REGISTRY_PROPERTY_PARSERS parser then
      match node.propRegistry with
      | some reg =>
        let key := stripPrefixStr ("minecraft:".data) reg
        if (lookupAssoc regs key).isSome then some key else none
      | none => none
    else
      let mapped := lookupAssoc registryMap parser
      let step2 : Option Str :=
        match mapped with
        | some m => if m ≠ [] ∧ (lookupAssoc regs m).isSome then some m else none
        | none => none
      match step2 with
      | some k => some k
      | none =>
        let step3 : Option Str :=
          if mapped = none ∧ containsSub parser (":".data) then
            let bareKey := (jsSplit ':' parser).getD 1 []
            if (lookupAssoc regs bareKey).isSome then some bareKey else none
          else none
        match step3 with
        | some k => some k
        | none =>
          let step4 : Option Str :=
            if parser = "minecraft:resource_location".data then
              match lookupAssoc resourceLocationRegistryMap nodeName with
              | some h => if h ≠ [] ∧ (lookupAssoc regs h).isSome then some h else none
              | none => none
            else none
          match step4 with
          | some k => some k
          | none =>
            if parser = "minecraft:loot_table".data
                ∧ (lookupAssoc regs ("loot_table".data)).isSome then
              some ("loot_table".data)
            else none

/-- The per-parser value-format checks of `validateArgument` (the branch
chain before the registry check); `some` is the error it would return. -/
def validateArgumentFormat (token : Str) (parser : Str) (offset : Nat) :
    Option CmdErr :=
  if parser = "brigadier:integer".data then
    if ¬ intRe token then
      some ⟨offset, token.length, "Expected integer, got: ".data ++ token, .error⟩
    else none
  else if parser = "brigadier:float".data ∨ parser = "brigadier:double".data then
    if ¬ numRe token then
      some ⟨offset, token.length, "Expected number, got: ".data ++ token, .error⟩
    else none
  else if parser = "brigadier:bool".data then
    if token ≠ "true".data ∧ token ≠ "false".data then
      some ⟨offset, token.length,
        "Expected boolean (true/false), got: ".data ++ token, .error⟩
    else none
  else if parser = "minecraft:gamemode".data then
    if ¬ listMem gamemodes token then
      some ⟨offset, token.length,
        "Invalid gamemode: ".data ++ token ++ ". Expected: ".data
          ++ joinSep (", ".data) gamemodes, .error⟩
    else none
  else if containsSub parser ("entity".data) ∨ parser = "minecraft:score_holder".data
      ∨ parser = "minecraft:game_profile".data then
    if ¬ jsStartsWith token ("@".data) ∧ ¬ identRe token then
      some ⟨offset, token.length,
        "Invalid entity selector or player name: ".data ++ token, .warning⟩
    else none
  else none
where gamemodes : List Str :=
  ["survival".data, "creative".data, "adventure".data, "spectator".data]

/-- The registry-membership check at the end of `validateArgument`. -/
def validateArgumentRegistry (regs : List (Str × List Str)) (token : Str)
    (node : CommandNode) (offset : Nat) : Option CmdErr :=
  match resolveRegistryKey regs node [] with
  | none => none
  | some registryKey =>
    if registryKey ≠ [] then
      match lookupAssoc regs registryKey with
      | none => none
      | some entries =>
        let normalizedToken := stripPrefixStr ("#".data) token
        let fullId := if containsSub normalizedToken (":".data) then normalizedToken
          else "minecraft:".data ++ normalizedToken
        let baseId := truncAtChar '{' (truncAtChar '[' fullId)
        if ¬ listMem entries baseId
            ∧ ¬ listMem entries (removeFirstOcc baseId ("minecraft:".data)) then
          some ⟨offset, token.length,
            "Unknown ".data ++ registryKey ++ ": ".data ++ baseId, .warning⟩
        else none
    else none

/-- `validateArgument` of the source: the format-check chain, then (when no
branch returned) the registry-membership check. -/
def validateArgument (regs : List (Str × List Str)) (token : Str)
    (node : CommandNode) (offset : Nat) : Option CmdErr :=
  match node.parser with
  | none => none
  | some parser =>
    match validateArgumentFormat token parser offset with
    | some e => some e
    | none => validateArgumentRegistry regs token node offset

/-- `getExpectedTokens` of the source. -/
def getExpectedTokens (nodes : List CommandNode) : List Str :=
  nodes.foldl (fun acc n =>
    acc ++ n.children.foldl (fun acc2 kv =>
      match kv.2.type with
      | .literal => acc2 ++ [kv.1]
      | .argument => acc2 ++ ["<".data ++ kv.1 ++ ">".data]
      | .root => acc2) []) []

/-- `expected.slice(0, 5).join(", ")` plus the ellipsis when more exist. -/
def expectedMsgSuffix (expectedTokens : List Str) : Str :=
  joinSep (", ".data) (expectedTokens.take 5)
    ++ (if expectedTokens.length > 5 then "...".data else [])

/-! ## `validateCommand` -/

/-- The first node of `currentNodes` whose `children[token]` is a literal
(the literal-match loop of `validateCommand`, which breaks at the first
hit), returning that literal child. -/
def findLiteralNode (nodes : List CommandNode) (token : Str) : Option CommandNode :=
  match nodes with
  | [] => none
  | n :: rest =>
    match childLookup n token with
    | some c => if c.type = .literal then some c else findLiteralNode rest token
    | none => findLiteralNode rest token

/-- The first argument-typed child across `currentNodes` in iteration order
(the argument-match loop of `validateCommand`, which breaks after one hit). -/
def findFirstArgChild (nodes : List CommandNode) : Option CommandNode :=
  match nodes with
  | [] => none
  | n :: rest =>
    match firstArgOfChildren n.children with
    | some c => some c
    | none => findFirstArgChild rest
where firstArgOfChildren : List (Str × CommandNode) → Option CommandNode
  | [] => none
  | (_, c) :: cs => if c.type = .argument then some c else firstArgOfChildren cs

/-- What one iteration of the `validateCommand` loop computes for one token:
the next node set, the match flags, the multi-token skip, and the error
`validateArgument` contributed (if any). -/
structure VStep where
  nextNodes : List CommandNode
  foundMatch : Bool
  foundLiteral : Bool
  argSkip : Nat
  hasRedirect : Bool
  hasExecutable : Bool
  errs : List CmdErr

/-- One matching step of `validateCommand` (lines 205–278 of the source):
literal matches first (authoritative), else the first argument child, with
redirect fallback and the per-argument value check. -/
def validateStep (tree : CommandNode) (regs : List (Str × List Str))
    (currentNodes : List CommandNode) (token : Str) (currentOffset : Nat)
    (hasExecutable : Bool) : VStep :=
  match findLiteralNode currentNodes token with
  | some originalNode =>
    let hasExecutable := hasExecutable || originalNode.executable
    let hasRedirect := originalNode.redirect.isSome
    let targetNode := redirTarget tree originalNode
    ⟨[targetNode], true, true, 0, hasRedirect, hasExecutable, []⟩
  | none =>
    match findFirstArgChild currentNodes with
    | some child =>
      let hasExecutable := hasExecutable || child.executable
      let hasRedirect := child.redirect.isSome
      let targetNode := redirTarget tree child
      let count := getParserTokenCount (child.parser.getD [])
      let argSkip := count - 1
      let errs := match validateArgument regs token child currentOffset with
        | some e => [e]
        | none => []
      ⟨[targetNode], true, false, argSkip, hasRedirect, hasExecutable, errs⟩
    | none => ⟨[], false, false, 0, false, hasExecutable, []⟩

/-- The token loop of `validateCommand`, with fuel (one unit per iteration;
every iteration consumes at least one token, so `tokens.length + 1` always
suffices). Returns the accumulated errors, the final node set and the
executable flag. -/
def validateLoopF (tree : CommandNode) (regs : List (Str × List Str)) :
    Nat → List Str → List CommandNode → Nat → Nat → Bool → List CmdErr →
    Option (List CmdErr × List CommandNode × Bool)
  | 0, _, _, _, _, _, _ => none
  | _ + 1, [], currentNodes, _, _, hasExecutable, errors =>
    some (errors, currentNodes, hasExecutable)
  | fuel + 1, token :: rest, currentNodes, tokenIndex, currentOffset,
      hasExecutable, errors =>
    let st := validateStep tree regs currentNodes token currentOffset hasExecutable
    let errors := errors ++ st.errs
    let errors :=
      if ¬ st.foundMatch ∧ tokenIndex > 0 then
        let expectedTokens := getExpectedTokens currentNodes
        if expectedTokens.length > 0 then
          errors ++ [⟨currentOffset, token.length,
            "Unexpected argument: ".data ++ token ++ ". Expected: ".data
              ++ expectedMsgSuffix expectedTokens, .error⟩]
        else errors
      else errors
    let next :=
      if token = "run".data then ([tree], false)
      else if st.nextNodes.length > 0 then (st.nextNodes, st.hasExecutable)
      else (currentNodes, st.hasExecutable)
    let skip := if st.foundLiteral then 0 else st.argSkip
    let hasExecutable :=
      if st.hasRedirect ∧ (rest.drop skip).length ≠ 0 then false else next.2
    validateLoopF tree regs fuel (rest.drop skip) next.1 (tokenIndex + 1 + skip)
      (currentOffset + token.length + 1) hasExecutable errors

/-- `validateCommand` of the source. `none` models a run that did not
terminate (never produced here, since the loop always consumes tokens). -/
def validateCommand (m : Spyglass) (command : Str) (ignoreIncomplete : Bool) :
    Option (List CmdErr) :=
  if ¬ m.initialized then some [] else
  match m.commandTree with
  | none => some []
  | some tree =>
    let startsSlash := jsStartsWith command ("/".data)
    let cleanCommand := if startsSlash then command.drop 1 else command
    if jsTrim cleanCommand = [] then some [] else
    let tokens := tokenize (jsTrim cleanCommand)
    if tokens.length = 0 then some [] else
    let firstToken := tokens.headD []
    match childLookup tree firstToken with
    | none => some [⟨if startsSlash then 1 else 0, firstToken.length,
        "Unknown command: ".data ++ firstToken, .error⟩]
    | some _ =>
      match validateLoopF tree m.registries (tokens.length + 1) tokens [tree] 0
          (if startsSlash then 1 else 0) false [] with
      | none => none
      | some (errors, currentNodes, hasExecutable) =>
        let hasExecutableNode := hasExecutable || currentNodes.any (·.executable)
        let firstIsTree : Bool :=
          match currentNodes.head? with
          | some h => beqNode h tree
          | none => false
        if ¬ ignoreIncomplete ∧ ¬ hasExecutableNode ∧ ¬ firstIsTree then
          let expectedTokens := getExpectedTokens currentNodes
          if expectedTokens.length > 0 then
            some (errors ++ [⟨0, command.length,
              "Incomplete command. Expected: ".data
                ++ expectedMsgSuffix expectedTokens, .error⟩])
          else some errors
        else some errors

/-! ## `traverse` (the completion engine's walker) -/

/-- What one iteration of `traverse` collects over all current nodes and all
their children: literal matches and every argument child, with the maximum
multi-token skip. -/
structure TravStep where
  nextNodes : List CommandNode
  foundLiteral : Bool
  argSkip : Nat

/-- How one child entry updates the collection state of `traverse`: a
literal child is collected when its name equals the token, an argument
child is always collected (with its multi-token skip). -/
def travChildStep (tree : CommandNode) (arg : Str) (st : TravStep)
    (kv : Str × CommandNode) : TravStep :=
  let targetNode := redirTarget tree kv.2
  match kv.2.type with
  | .literal =>
    if kv.1 = arg then ⟨st.nextNodes ++ [targetNode], true, st.argSkip⟩ else st
  | .argument =>
    let count := getParserTokenCount (kv.2.parser.getD [])
    ⟨st.nextNodes ++ [targetNode], st.foundLiteral, max st.argSkip (count - 1)⟩
  | .root => st

/-- All children of one current node, in entry order. -/
def travNodeStep (tree : CommandNode) (arg : Str) (st : TravStep)
    (n : CommandNode) : TravStep :=
  n.children.foldl (travChildStep tree arg) st

/-- One collection step of `traverse` (lines 973–996 of the source). -/
def traverseStep (tree : CommandNode) (currentNodes : List CommandNode)
    (arg : Str) : TravStep :=
  currentNodes.foldl (travNodeStep tree arg) ⟨[], false, 0⟩

/-- Result record of `traverse`. -/
structure TravRes where
  nodes : List CommandNode
  midCoord : Nat

/-- The argument loop of `traverse`, with fuel (one unit per iteration). -/
def traverseLoopF (tree : CommandNode) :
    Nat → List CommandNode → List Str → Option TravRes
  | 0, _, _ => none
  | _ + 1, currentNodes, [] => some ⟨currentNodes, 0⟩
  | fuel + 1, currentNodes, arg :: rest =>
    let st := traverseStep tree currentNodes arg
    if st.nextNodes.length = 0 then some ⟨[], 0⟩ else
    let currentNodes := st.nextNodes
    let skip := if st.foundLiteral then 0 else st.argSkip
    let remaining := rest.length
    if ¬ st.foundLiteral ∧ skip > 0 ∧ remaining < skip then
      some ⟨currentNodes, skip - remaining⟩
    else
      traverseLoopF tree fuel currentNodes (rest.drop skip)

/-- `traverse` of the source (`tree` is the manager's command tree, used as
the base of redirect resolution; the walk itself starts at `root`). -/
def traverse (tree root : CommandNode) (args : List Str) : Option TravRes :=
  traverseLoopF tree (args.length + 1) [root] args

/-! ## Completion engine -/

/-- `getFallbackCompletions` of the source (returns `[]`). -/
def getFallbackCompletions (_command : Str) : List CompItem := []

/-- The regular expression `/(@[a-z])\[([^\]]*)$/` applied to the text before
the cursor: the leftmost `@<letter>[` whose bracket is not closed before the
end; returns the sigil and the bracket content. -/
def selectorOpenMatch : Str → Option (Str × Str)
  | [] => none
  | c0 :: rest0 =>
    match c0 :: rest0 with
    | '@' :: c :: '[' :: rest =>
      if isLowerCh c ∧ ¬ rest.contains ']' then some (['@', c], rest)
      else selectorOpenMatch rest0
    | _ => selectorOpenMatch rest0

/-- `addRegistryCompletions` of the source, threading the item list and the
seen-label set. -/
def addRegistryCompletions (regs : List (Str × List Str))
    (items : List CompItem) (registryKey : Str) (currentInput : Str)
    (seenLabels : List Str) (isTag : Bool) (isNegated : Bool) :
    List CompItem × List Str :=
  match lookupAssoc regs registryKey with
  | none => (items, seenLabels)
  | some entries =>
    entries.foldl (fun acc id =>
      let fullId := if containsSub id (":".data) then id else "minecraft:".data ++ id
      let startsAfterColon : Bool :=
        (match (jsSplit ':' id).get? 1 with
          | some seg => jsStartsWith seg currentInput
          | none => false) ||
        (match (jsSplit ':' fullId).get? 1 with
          | some seg => jsStartsWith seg currentInput
          | none => false)
      if currentInput = [] ∨ containsSub id currentInput
          ∨ containsSub fullId currentInput ∨ startsAfterColon then
        let label := (if isNegated then "!".data else [])
          ++ (if isTag then "#".data ++ fullId else fullId)
        if ¬ listMem acc.2 label then
          (acc.1 ++ [⟨label, .value, some registryKey, none, some ("1_".data ++ label)⟩],
            acc.2 ++ [label])
        else acc
      else acc) (items, seenLabels)

/-- `addSingleCoordinateCompletions` of the source. -/
def addSingleCoordinateCompletions (items : List CompItem) (currentInput : Str)
    (seenLabels : List Str) : List CompItem × List Str :=
  ["~".data, "^".data, "0".data].foldl (fun acc val =>
    if jsStartsWith val currentInput ∧ ¬ listMem acc.2 val then
      (acc.1 ++ [⟨val, .value, some ("Coordinate".data), none,
          some ("0_".data ++ val)⟩], acc.2 ++ [val])
    else acc) (items, seenLabels)

/-- `addCoordinateCompletions` of the source. -/
def addCoordinateCompletions (items : List CompItem) (parser : Str)
    (currentInput : Str) (seenLabels : List Str) : List CompItem × List Str :=
  let count := getParserTokenCount parser
  let axes3 := count = 3
  let snippets : List (Str × Str × Str) :=
    if axes3 then
      [ ("~ ~ ~".data, "~ ~ ~".data, "Relative coordinates".data)
      , ("^ ^ ^".data, "^ ^ ^".data, "Local coordinates".data)
      , ("0 0 0".data, "0 0 0".data, "Absolute coordinates".data) ]
    else
      [ ("~ ~".data, "~ ~".data, "Relative".data)
      , ("^ ^".data, "^ ^".data, "Local".data)
      , ("0 0".data, "0 0".data, "Absolute".data) ]
  let acc := snippets.foldl (fun acc s =>
    if (currentInput = [] ∨ jsStartsWith s.1 currentInput) ∧ ¬ listMem acc.2 s.1 then
      (acc.1 ++ [⟨s.1, .snippet, some s.2.2, some s.2.1, some ("0_".data ++ s.1)⟩],
        acc.2 ++ [s.1])
    else acc) (items, seenLabels)
  addSingleCoordinateCompletions acc.1 currentInput acc.2

/-- The fixed color-name list of `addArgumentCompletions`. -/
def colorNames : List Str :=
  [ "black".data, "dark_blue".data, "dark_green".data, "dark_aqua".data
  , "dark_red".data, "dark_purple".data, "gold".data, "gray".data
  , "dark_gray".data, "blue".data, "green".data, "aqua".data, "red".data
  , "light_purple".data, "yellow".data, "white".data, "reset".data ]

/-- `addArgumentCompletions` of the source. -/
def addArgumentCompletions (regs : List (Str × List Str))
    (items : List CompItem) (node : CommandNode) (currentInput : Str)
    (seenLabels : List Str) (nodeName : Str) : List CompItem × List Str :=
  match node.parser with
  | none => (items, seenLabels)
  | some parser =>
    if isCoordinateParser parser then
      addCoordinateCompletions items parser currentInput seenLabels
    else
      match resolveRegistryKey regs node nodeName with
      | some registryKey =>
        let isTag := parser = "minecraft:resource_or_tag".data
          ∨ parser = "minecraft:resource_or_tag_key".data
        let acc := addRegistryCompletions regs items registryKey currentInput
          seenLabels false false
        if isTag then
          let tagKey := "tag/".data ++ registryKey
          if (lookupAssoc regs tagKey).isSome then
            addRegistryCompletions regs acc.1 tagKey
              (stripPrefixStr ("#".data) currentInput) acc.2 true false
          else acc
        else acc
      | none =>
        if parser = "brigadier:bool".data then
          ["true".data, "false".data].foldl (fun acc val =>
            if jsStartsWith val currentInput ∧ ¬ listMem acc.2 val then
              (acc.1 ++ [⟨val, .keyword, some ("Boolean".data), none, none⟩],
                acc.2 ++ [val])
            else acc) (items, seenLabels)
        else if containsSub parser ("entity".data)
            ∨ parser = "minecraft:score_holder".data
            ∨ parser = "minecraft:game_profile".data then
          ["@p".data, "@a".data, "@r".data, "@s".data, "@e".data].foldl
            (fun acc sel =>
              if jsStartsWith sel currentInput ∧ ¬ listMem acc.2 sel then
                (acc.1 ++ [⟨sel, .value, some ("Selector".data), none, none⟩],
                  acc.2 ++ [sel])
              else acc) (items, seenLabels)
        else if parser = "minecraft:gamemode".data then
          ["survival".data, "creative".data, "adventure".data,
              "spectator".data].foldl (fun acc mode =>
            if jsStartsWith mode currentInput ∧ ¬ listMem acc.2 mode then
              (acc.1 ++ [⟨mode, .enumMember, some ("Game mode".data), none, none⟩],
                acc.2 ++ [mode])
            else acc) (items, seenLabels)
        else if parser = "minecraft:color".data
            ∨ parser = "minecraft:hex_color".data then
          if parser = "minecraft:color".data then
            colorNames.foldl (fun acc color =>
              if jsStartsWith color currentInput ∧ ¬ listMem acc.2 color then
                (acc.1 ++ [⟨color, .color, some ("Color".data), none, none⟩],
                  acc.2 ++ [color])
              else acc) (items, seenLabels)
          else (items, seenLabels)
        else if parser = "minecraft:resource_location".data then
          if jsStartsWith ("minecraft:".data) currentInput
              ∧ ¬ listMem seenLabels ("minecraft:".data) then
            (items ++ [⟨"minecraft:".data, .value, some ("Namespace".data),
                none, none⟩], seenLabels ++ ["minecraft:".data])
          else (items, seenLabels)
        else (items, seenLabels)

/-- Matches `Tags\s*:\s*\[` at the start of `s`, returning what follows the
bracket. -/
def tagsPatAfter (s : Str) : Option Str :=
  if "Tags".data.isPrefixOf s then
    match (s.drop 4).dropWhile isJsWs with
    | ':' :: r2 =>
      match r2.dropWhile isJsWs with
      | '[' :: r4 => some r4
      | _ => none
    | _ => none
  else none

/-- `/Tags\s*:\s*\[(.*)$/.exec(s)`: the content after the first `Tags:[`. -/
def tagsExec : Str → Option Str
  | [] => none
  | c :: rest =>
    match tagsPatAfter (c :: rest) with
    | some r => some r
    | none => tagsExec rest

/-- `/Tags\s*:\s*\[[^\]]*$/.test(s)`: some `Tags:[` whose bracket is not
closed before the end of the string. -/
def tagsTest : Str → Bool
  | [] => false
  | c :: rest =>
    (match tagsPatAfter (c :: rest) with
      | some r => ¬ r.contains ']'
      | none => false) || tagsTest rest

/-- `s.substring(s.lastIndexOf("{"))`. -/
def fromLastBrace (s : Str) : Str :=
  if s.contains '{' then '{' :: (s.reverse.takeWhile (· ≠ '{')).reverse else s

/-- `content.split(",").pop()?.trim().replace(/^"|"$/g, "")`. -/
def lastTagPiece (content : Str) : Str :=
  let piece := jsTrim ((jsSplit ',' content).getLastD [])
  let piece := match piece with
    | '"' :: r => r
    | _ => piece
  match piece.reverse with
  | '"' :: r => r.reverse
  | _ => piece

/-- The default part of `getCommandCompletions` (after the selector branch):
the `tag` command special case, the traversal, the mid-coordinate and
`Tags:[` branches, and the per-child completion loop. -/
def getCommandCompletionsMain (m : Spyglass) (tree : CommandNode)
    (cleanCommand : Str) (effectiveOffset : Nat) (availableTags : List Str) :
    Option (List CompItem) :=
  let textBeforeCursor := cleanCommand.take effectiveOffset
  let tokens := tokenize (jsTrim textBeforeCursor)
  let isNewToken := jsEndsWith textBeforeCursor (" ".data)
  let completedArgs := if isNewToken then tokens else tokens.dropLast
  let currentInput := if isNewToken then [] else tokens.getLastD []
  let acc0 : List CompItem × List Str :=
    if completedArgs.length ≥ 2 ∧ completedArgs.getD 0 [] = "tag".data then
      let action := completedArgs.getD 2 []
      if (action = "add".data ∨ action = "remove".data)
          ∧ completedArgs.length = 3 then
        availableTags.foldl (fun acc tag =>
          if jsStartsWith tag currentInput ∧ ¬ listMem acc.2 tag then
            (acc.1 ++ [⟨tag, .value, some ("Tag".data), none, none⟩],
              acc.2 ++ [tag])
          else acc) ([], [])
      else ([], [])
    else ([], [])
  match traverse tree tree completedArgs with
  | none => none
  | some res =>
    if res.midCoord > 0 then
      some (addSingleCoordinateCompletions acc0.1 currentInput acc0.2).1
    else
      let tagsBranch : Option (List CompItem) :=
        if containsSub currentInput ("\x7b".data) then
          let nbtPart := fromLastBrace currentInput
          if tagsTest nbtPart then
            match tagsExec nbtPart with
            | some content =>
              let currentTag := lastTagPiece content
              some (availableTags.foldl (fun acc tag =>
                if jsStartsWith tag currentTag ∧ ¬ listMem acc.2 tag then
                  (acc.1 ++ [⟨tag, .value, some ("Tag".data),
                      some ('"' :: tag ++ ['"']), none⟩], acc.2 ++ [tag])
                else acc) acc0).1
            | none => none
          else none
        else none
      match tagsBranch with
      | some items => some items
      | none =>
        some (res.nodes.foldl (fun acc n =>
          n.children.foldl (fun acc kv =>
            match kv.2.type with
            | .literal =>
              if jsStartsWith kv.1 currentInput ∧ ¬ listMem acc.2 kv.1 then
                (acc.1 ++ [⟨kv.1, .keyword, some ("Literal".data), none,
                    some ("0_".data ++ kv.1)⟩], acc.2 ++ [kv.1])
              else acc
            | .argument =>
              addArgumentCompletions m.registries acc.1 kv.2 currentInput
                acc.2 kv.1
            | .root => acc) acc) acc0).1

/-- `getCommandCompletions` of the source. -/
def getCommandCompletions (m : Spyglass) (command : Str) (cursorOffset : Nat)
    (availableTags : List Str) : Option (List CompItem) :=
  if ¬ m.initialized then some (getFallbackCompletions command) else
  match m.commandTree with
  | none => some (getFallbackCompletions command)
  | some tree =>
    let startsSlash := jsStartsWith command ("/".data)
    let cleanCommand := if startsSlash then command.drop 1 else command
    let offsetAdjustment := if startsSlash then 1 else 0
    if cursorOffset < offsetAdjustment then some [] else
    let effectiveOffset := cursorOffset - offsetAdjustment
    match selectorOpenMatch (cleanCommand.take effectiveOffset) with
    | some (_sigil, selectorContent) =>
      let parts := jsSplit ',' selectorContent
      let lastPart := jsTrim (parts.getLastD [])
      if containsSub lastPart ("=".data) then
        let pieces := (jsSplit '=' lastPart).map jsTrim
        let key := pieces.getD 0 []
        let val := pieces.getD 1 []
        if key = "type".data then
          let acc := addRegistryCompletions m.registries [] ("entity_type".data)
            val [] false false
          some (addRegistryCompletions m.registries acc.1 ("entity_type".data)
            (removeFirstOcc val ("!".data)) acc.2 false true).1
        else if key = "gamemode".data then
          some ((["survival".data, "creative".data, "adventure".data,
              "spectator".data].foldl (fun acc mode =>
            if jsStartsWith mode val then acc ++ [⟨mode, .enumMember, none, none, none⟩]
            else acc) []))
        else if key = "tag".data then
          some (availableTags.foldl (fun acc t =>
            if jsStartsWith t val ∨ jsStartsWith t (removeFirstOcc val ("!".data)) then
              acc ++ [⟨t, .value, some ("Tag".data), none, none⟩]
            else acc) [])
        else
          getCommandCompletionsMain m tree cleanCommand effectiveOffset availableTags
      else
        some (selectorKeys.foldl (fun acc k =>
          if jsStartsWith k lastPart then
            acc ++ [⟨k, .property, none, some (k ++ "=".data), none⟩]
          else acc) [])
    | none =>
      getCommandCompletionsMain m tree cleanCommand effectiveOffset availableTags
where selectorKeys : List Str :=
  [ "type".data, "tag".data, "name".data, "distance".data, "level".data
  , "x".data, "y".data, "z".data, "dx".data, "dy".data, "dz".data
  , "gamemode".data, "scores".data, "advancements".data, "nbt".data
  , "limit".data, "sort".data, "x_rotation".data, "y_rotation".data
  , "team".data ]

/-! ## Micro-tokenizers

Each scanner keeps a position `pos` into the fixed `text`; the `while`
loops carry a fuel argument and return `none` when it runs out, modelling a
run of the source that has not terminated yet. -/

/-- `text[pos]` (guarded by `pos < text.length` at every use site). -/
def charAt (text : Str) (pos : Nat) : Char := text.getD pos '\x00'

/-- `emit(start, len, type)`: one span, skipped when `len = 0`. -/
def emitTok (base start len : Nat) (ty : Str) : List SemTok :=
  if len > 0 then [⟨base + start, len, ty⟩] else []

/-- `while (pos < len && text[pos] === " ") pos++`. -/
def skipWsFrom (text : Str) (pos : Nat) : Nat :=
  pos + ((text.drop pos).takeWhile (· = ' ')).length

/-- The scan `while (pos < len && text[pos] !== q) { if (text[pos] === "\\")
pos++; pos++ }`, returning how far `pos` moves (two steps at a backslash,
even past the end of the text). -/
def qScanLen (q : Char) : Str → Nat
  | [] => 0
  | c :: rest =>
    if c = q then 0
    else if c = '\\' then
      match rest with
      | [] => 2
      | _ :: r => 2 + qScanLen q r
    else 1 + qScanLen q rest

/-- `readQuotedString` of `tokenizeNbt`: scan to the closing quote (or past
the end) and emit one `string` span. Returns the spans and the new `pos`. -/
def readQuotedString (text : Str) (base pos : Nat) : List SemTok × Nat :=
  let s := pos
  let q := charAt text pos
  let pos := pos + 1
  let pos := pos + qScanLen q (text.drop pos)
  let pos := if pos < text.length then pos + 1 else pos
  (emitTok base s (pos - s) ("string".data), pos)

/-- The quoted-key reader inlined in `readCompound` (same scan, `property`). -/
def readQuotedKey (text : Str) (base pos : Nat) : List SemTok × Nat :=
  let ks := pos
  let q := charAt text pos
  let pos := pos + 1
  let pos := pos + qScanLen q (text.drop pos)
  let pos := if pos < text.length then pos + 1 else pos
  (emitTok base ks (pos - ks) ("property".data), pos)

/-- The character class `/[a-zA-Z0-9._+\-:\/]/` of `readUnquoted`. -/
def unquotedClass (c : Char) : Bool :=
  isAlphaCh c || isDigitCh c || c = '.' || c = '_' || c = '+' || c = '-'
    || c = ':' || c = '/'

/-- How far `readUnquoted` advances. -/
def readUnquotedLen (text : Str) (pos : Nat) : Nat :=
  ((text.drop pos).takeWhile unquotedClass).length

/-- `/^[-+]?[0-9]+(\.[0-9]+)?[bBsSlLfFdD]?$/` of `classifyWord`. -/
def nbtNumRe (s : Str) : Bool :=
  let body := match s with
    | '-' :: r => r
    | '+' :: r => r
    | _ => s
  let core := match body.reverse with
    | c :: front =>
      if c = 'b' || c = 'B' || c = 's' || c = 'S' || c = 'l' || c = 'L'
          || c = 'f' || c = 'F' || c = 'd' || c = 'D'
      then front.reverse else body
    | [] => body
  match jsSplit '.' core with
  | [a] => digits1 a
  | [a, b] => digits1 a && digits1 b
  | _ => false

/-- Index of the first occurrence of `c` in `s` (use guarded by containment). -/
def idxOfCh (c : Char) (s : Str) : Nat := (s.takeWhile (· ≠ c)).length

/-- `classifyWord` of `tokenizeNbt`. -/
def classifyWord (base : Nat) (word : Str) (start : Nat) : List SemTok :=
  if word.length = 0 then []
  else if word = "true".data ∨ word = "false".data then
    emitTok base start word.length ("enumMember".data)
  else if nbtNumRe word then
    emitTok base start word.length ("number".data)
  else if containsSub word (":".data) then
    let ci := idxOfCh ':' word
    emitTok base start ci ("type".data)
      ++ emitTok base (start + ci) 1 ("operator".data)
      ++ emitTok base (start + ci + 1) (word.length - ci - 1) ("type".data)
  else
    emitTok base start word.length ("string".data)

/-- Selector for the mutually recursive readers of `tokenizeNbt`
(`readValue`, `readCompound`, its loop, `readList`, its loop), fused into
one function so that the recursion is structural in the fuel. -/
inductive NbtFn where
  | value
  | compound
  | compoundLoop
  | list
  | listLoop

/-- The mutually recursive core of `tokenizeNbt`; each call consumes one
unit of fuel. -/
def nbtRunF : Nat → NbtFn → Str → Nat → Nat → Option (List SemTok × Nat)
  | 0, _, _, _, _ => none
  | fuel + 1, .value, text, base, pos =>
    -- `readValue`
    let pos := skipWsFrom text pos
    if pos ≥ text.length then some ([], pos) else
    let ch := charAt text pos
    if ch = '{' then nbtRunF fuel .compound text base pos
    else if ch = '[' then nbtRunF fuel .list text base pos
    else if ch = '"' ∨ ch = '\'' then some (readQuotedString text base pos)
    else
      let s := pos
      let n := readUnquotedLen text pos
      let w := (text.drop pos).take n
      some (classifyWord base w s, pos + n)
  | fuel + 1, .compound, text, base, pos =>
    -- `readCompound`
    let toks0 := emitTok base pos 1 ("operator".data)
    let pos := pos + 1
    let pos := skipWsFrom text pos
    match nbtRunF fuel .compoundLoop text base pos with
    | none => none
    | some (toksLoop, pos) =>
      if pos < text.length ∧ charAt text pos = '}' then
        some (toks0 ++ toksLoop ++ emitTok base pos 1 ("operator".data), pos + 1)
      else some (toks0 ++ toksLoop, pos)
  | fuel + 1, .compoundLoop, text, base, pos =>
    -- the `while` loop of `readCompound`: key, `:`, value, `,`, forced
    -- one-character advance when an iteration did not move
    if ¬ (pos < text.length ∧ charAt text pos ≠ '}') then some ([], pos) else
    let startPos := pos
    let pos := skipWsFrom text pos
    if pos ≥ text.length ∨ charAt text pos = '}' then some ([], pos) else
    let keyStep : List SemTok × Nat :=
      if charAt text pos = '"' ∨ charAt text pos = '\'' then
        readQuotedKey text base pos
      else
        let ks := pos
        let n := readUnquotedLen text pos
        (if n > 0 then emitTok base ks n ("property".data) else [], pos + n)
    let pos := skipWsFrom text keyStep.2
    let colonStep : List SemTok × Nat :=
      if pos < text.length ∧ charAt text pos = ':' then
        (emitTok base pos 1 ("operator".data), pos + 1)
      else ([], pos)
    match nbtRunF fuel .value text base colonStep.2 with
    | none => none
    | some (valToks, pos) =>
      let pos := skipWsFrom text pos
      let commaStep : List SemTok × Nat :=
        if pos < text.length ∧ charAt text pos = ',' then
          (emitTok base pos 1 ("operator".data), pos + 1)
        else ([], pos)
      let pos := if commaStep.2 = startPos then commaStep.2 + 1 else commaStep.2
      match nbtRunF fuel .compoundLoop text base pos with
      | none => none
      | some (restToks, pos) =>
        some (keyStep.1 ++ colonStep.1 ++ valToks ++ commaStep.1 ++ restToks, pos)
  | fuel + 1, .list, text, base, pos =>
    -- `readList` (with the `B;`/`I;`/`L;` typed-array prefix)
    let toks0 := emitTok base pos 1 ("operator".data)
    let pos := pos + 1
    let pos := skipWsFrom text pos
    let prefStep : List SemTok × Nat :=
      if pos + 1 < text.length
          ∧ (charAt text pos = 'B' ∨ charAt text pos = 'I' ∨ charAt text pos = 'L')
          ∧ charAt text (pos + 1) = ';' then
        (emitTok base pos 1 ("keyword".data)
          ++ emitTok base (pos + 1) 1 ("operator".data), pos + 2)
      else ([], pos)
    match nbtRunF fuel .listLoop text base prefStep.2 with
    | none => none
    | some (toksLoop, pos) =>
      if pos < text.length ∧ charAt text pos = ']' then
        some (toks0 ++ prefStep.1 ++ toksLoop
          ++ emitTok base pos 1 ("operator".data), pos + 1)
      else some (toks0 ++ prefStep.1 ++ toksLoop, pos)
  | fuel + 1, .listLoop, text, base, pos =>
    -- the `while` loop of `readList`
    if ¬ (pos < text.length ∧ charAt text pos ≠ ']') then some ([], pos) else
    let startPos := pos
    let pos := skipWsFrom text pos
    if pos ≥ text.length ∨ charAt text pos = ']' then some ([], pos) else
    match nbtRunF fuel .value text base pos with
    | none => none
    | some (valToks, pos) =>
      let pos := skipWsFrom text pos
      let commaStep : List SemTok × Nat :=
        if pos < text.length ∧ charAt text pos = ',' then
          (emitTok base pos 1 ("operator".data), pos + 1)
        else ([], pos)
      let pos := if commaStep.2 = startPos then commaStep.2 + 1 else commaStep.2
      match nbtRunF fuel .listLoop text base pos with
      | none => none
      | some (restToks, pos) =>
        some (valToks ++ commaStep.1 ++ restToks, pos)

/-- `readValue` of `tokenizeNbt`. -/
def readValueF (fuel : Nat) (text : Str) (base pos : Nat) :
    Option (List SemTok × Nat) :=
  nbtRunF fuel .value text base pos

/-- Fuel that is ample for every terminating scan of `text`. -/
def nbtFuel (text : Str) : Nat := 4 * text.length + 8

/-- `tokenizeNbt` of the source. -/
def tokenizeNbt (text : Str) (baseOffset : Nat) : Option (List SemTok) :=
  let pos := skipWsFrom text 0
  if pos < text.length then
    match readValueF (nbtFuel text) text baseOffset pos with
    | some (toks, _) => some toks
    | none => none
  else some []

/-- `getNbtTokens` of the source. -/
def getNbtTokens (text : Str) : Option (List SemTok) := tokenizeNbt text 0

/-! ## Block-state, path, suffix and selector tokenizers -/

/-- The balanced-bracket scan used for `{...}` / `[...]` slices: depth
counting from `pos`; `some e` is the index one past the closer, `none` when
the bracket never closes (the source's `end` then stays at `pos`). -/
def matchEndScan (op cl : Char) : Str → Int → Nat → Option Nat
  | [], _, _ => none
  | c :: rest, depth, i =>
    if c = op then matchEndScan op cl rest (depth + 1) (i + 1)
    else if c = cl then
      if depth - 1 = 0 then some (i + 1)
      else matchEndScan op cl rest (depth - 1) (i + 1)
    else matchEndScan op cl rest depth (i + 1)

/-- `end` after the `{`-balancing `for` loop starting at `pos` (stays at
`pos` when the brace never closes). -/
def braceEnd (text : Str) (pos : Nat) : Nat :=
  match matchEndScan '{' '}' (text.drop pos) 0 pos with
  | some e => e
  | none => pos

/-- `end` after the `[`-balancing `for` loop starting at `pos`. -/
def bracketEnd (text : Str) (pos : Nat) : Nat :=
  match matchEndScan '[' ']' (text.drop pos) 0 pos with
  | some e => e
  | none => pos

/-- `text.substring(pos, e)`. -/
def sliceStr (text : Str) (pos e : Nat) : Str := (text.take e).drop pos

/-- The key class `/[a-z_]/` of the block-state and selector tokenizers. -/
def bsKeyClass (c : Char) : Bool := isLowerCh c || c = '_'

/-- The `while` loop of `tokenizeBlockState`. -/
def bsLoopF : Nat → Str → Nat → Nat → Option (List SemTok × Nat)
  | 0, _, _, _ => none
  | fuel + 1, text, base, pos =>
    if ¬ (pos < text.length ∧ charAt text pos ≠ ']') then some ([], pos) else
    let ks := pos
    let kn := ((text.drop pos).takeWhile bsKeyClass).length
    let keyToks := if kn > 0 then emitTok base ks kn ("property".data) else []
    let pos := pos + kn
    let eqStep : List SemTok × Nat :=
      if pos < text.length ∧ charAt text pos = '=' then
        (emitTok base pos 1 ("operator".data), pos + 1)
      else ([], pos)
    let vs := eqStep.2
    let vn := ((text.drop vs).takeWhile (fun c => c ≠ ',' ∧ c ≠ ']')).length
    let valToks := if vn > 0 then emitTok base vs vn ("enumMember".data) else []
    let pos := vs + vn
    let commaStep : List SemTok × Nat :=
      if pos < text.length ∧ charAt text pos = ',' then
        (emitTok base pos 1 ("operator".data), pos + 1)
      else ([], pos)
    match bsLoopF fuel text base commaStep.2 with
    | none => none
    | some (restToks, pos) =>
      some (keyToks ++ eqStep.1 ++ valToks ++ commaStep.1 ++ restToks, pos)

/-- `tokenizeBlockState` of the source; the second component is the
`consumed` field of its result. -/
def tokenizeBlockState (text : Str) (base : Nat) : Option (List SemTok × Nat) :=
  if 0 < text.length ∧ charAt text 0 = '[' then
    let toks0 := emitTok base 0 1 ("operator".data)
    match bsLoopF (text.length + 2) text base 1 with
    | none => none
    | some (toksLoop, pos) =>
      if pos < text.length ∧ charAt text pos = ']' then
        some (toks0 ++ toksLoop ++ emitTok base pos 1 ("operator".data), pos + 1)
      else some (toks0 ++ toksLoop, pos)
  else some ([], 0)

/-- The `while` loop of `tokenizeNbtPath`. The `{` branch re-enters at
`end`, which an unclosed brace leaves equal to `pos`: that configuration
repeats for ever, so the function returns `none` for every fuel. -/
def nbtPathLoopF : Nat → Str → Nat → Nat → Option (List SemTok)
  | 0, _, _, _ => none
  | fuel + 1, text, base, pos =>
    if pos ≥ text.length then some [] else
    let ch := charAt text pos
    if ch = '{' then
      let e := braceEnd text pos
      let nbtSlice := sliceStr text pos e
      match tokenizeNbt nbtSlice (base + pos) with
      | none => none
      | some sub =>
        match nbtPathLoopF fuel text base e with
        | none => none
        | some rest => some (sub ++ rest)
    else if ch = '[' then
      let toks0 := emitTok base pos 1 ("operator".data)
      let pos := pos + 1
      let inner : Option (List SemTok × Nat) :=
        if pos < text.length ∧ charAt text pos = '{' then
          let e := braceEnd text pos
          let nbtSlice := sliceStr text pos e
          match tokenizeNbt nbtSlice (base + pos) with
          | none => none
          | some sub => some (sub, e)
        else
          let ns := pos
          let nn := ((text.drop pos).takeWhile isDigitCh).length
          some (if nn > 0 then emitTok base ns nn ("number".data) else [], pos + nn)
      match inner with
      | none => none
      | some (innerToks, pos) =>
        let closeStep : List SemTok × Nat :=
          if pos < text.length ∧ charAt text pos = ']' then
            (emitTok base pos 1 ("operator".data), pos + 1)
          else ([], pos)
        match nbtPathLoopF fuel text base closeStep.2 with
        | none => none
        | some rest => some (toks0 ++ innerToks ++ closeStep.1 ++ rest)
    else if ch = '.' then
      match nbtPathLoopF fuel text base (pos + 1) with
      | none => none
      | some rest => some (emitTok base pos 1 ("operator".data) ++ rest)
    else if ch = '"' ∨ ch = '\'' then
      let step := readQuotedKey text base pos
      match nbtPathLoopF fuel text base step.2 with
      | none => none
      | some rest => some (step.1 ++ rest)
    else
      let ks := pos
      let kn := ((text.drop pos).takeWhile
        (fun c => isAlphaCh c || isDigitCh c || c = '_')).length
      let keyToks := if kn > 0 then emitTok base ks kn ("property".data) else []
      let pos' := if kn = 0 then pos + 1 else pos + kn
      match nbtPathLoopF fuel text base pos' with
      | none => none
      | some rest => some (keyToks ++ rest)

/-- `tokenizeNbtPath` of the source. -/
def tokenizeNbtPath (text : Str) (base : Nat) : Option (List SemTok) :=
  nbtPathLoopF (2 * text.length + 2) text base 0

/-- `tokenizeIdSuffix` of the source: an optional block-state `[...]` slice,
then an optional trailing `{...}` data block. -/
def tokenizeIdSuffix (text : Str) (base : Nat) : Option (List SemTok) :=
  let first : Option (List SemTok × Nat) :=
    if 0 < text.length ∧ charAt text 0 = '[' then
      let e := bracketEnd text 0
      let slice := sliceStr text 0 e
      match tokenizeBlockState slice (base + 0) with
      | none => none
      | some (toks, _) => some (toks, e)
    else some ([], 0)
  match first with
  | none => none
  | some (toks1, pos) =>
    if pos < text.length ∧ charAt text pos = '{' then
      let nbtSlice := text.drop pos
      match tokenizeNbt nbtSlice (base + pos) with
      | none => none
      | some toks2 => some (toks1 ++ toks2)
    else some toks1

/-- The value scan `while (pos < len && text[pos] !== "," && text[pos] !==
"]") pos++` of `tokenizeSelector`. -/
def selValueLen (text : Str) (pos : Nat) : Nat :=
  ((text.drop pos).takeWhile (fun c => c ≠ ',' ∧ c ≠ ']')).length

/-- The classification of a plain selector value (the `else` branch after
the data-block and quoted cases): range, number, boolean, namespaced
identifier, or plain string. -/
def selClassifyValue (base valueStart : Nat) (valueText : Str) : List SemTok :=
  if containsSub valueText ("..".data) then
    let parts := splitDotDot valueText
    let p0 := parts.getD 0 []
    (if p0.length > 0 ∧ intRe p0 then
      emitTok base valueStart p0.length ("number".data) else [])
    ++ emitTok base (valueStart + p0.length) 2 ("operator".data)
    ++ (match parts.get? 1 with
      | some p1 =>
        if p1.length > 0 ∧ intRe p1 then
          emitTok base (valueStart + p0.length + 2) p1.length ("number".data)
        else []
      | none => [])
  else if numRe valueText then
    emitTok base valueStart valueText.length ("number".data)
  else if valueText = "true".data ∨ valueText = "false".data then
    emitTok base valueStart valueText.length ("enumMember".data)
  else if containsSub valueText (":".data) then
    let ci := idxOfCh ':' valueText
    emitTok base valueStart ci ("namespace".data)
      ++ emitTok base (valueStart + ci) 1 ("operator".data)
      ++ emitTok base (valueStart + ci + 1) (valueText.length - ci - 1) ("type".data)
  else
    emitTok base valueStart valueText.length ("class".data)

/-- The key/value loop of `tokenizeSelector`. -/
def selLoopF : Nat → Str → Nat → Nat → Option (List SemTok × Nat)
  | 0, _, _, _ => none
  | fuel + 1, text, base, pos =>
    if ¬ (pos < text.length ∧ charAt text pos ≠ ']') then some ([], pos) else
    let startPos := pos
    let pos := skipWsFrom text pos
    if pos ≥ text.length ∨ charAt text pos = ']' then some ([], pos) else
    let keyStart := pos
    let kn := ((text.drop pos).takeWhile bsKeyClass).length
    let keyToks := if kn > 0 then emitTok base keyStart kn ("property".data) else []
    let pos := skipWsFrom text (pos + kn)
    let eqStep : List SemTok × Nat :=
      if pos < text.length ∧ charAt text pos = '=' then
        (emitTok base pos 1 ("operator".data), pos + 1)
      else ([], pos)
    let pos := skipWsFrom text eqStep.2
    let bangStep : List SemTok × Nat :=
      if pos < text.length ∧ charAt text pos = '!' then
        (emitTok base pos 1 ("operator".data), pos + 1)
      else ([], pos)
    let pos := skipWsFrom text bangStep.2
    let valueStart := pos
    let valueStep : Option (List SemTok × Nat) :=
      if pos < text.length ∧ charAt text pos = '{' then
        let e := braceEnd text pos
        let nbtSlice := sliceStr text pos e
        match tokenizeNbt nbtSlice (base + pos) with
        | none => none
        | some sub => some (sub, e)
      else if pos < text.length ∧ charAt text pos = '"' then
        let q := charAt text pos
        let pos := pos + 1
        let pos := pos + qScanLen q (text.drop pos)
        let pos := if pos < text.length then pos + 1 else pos
        some (emitTok base valueStart (pos - valueStart) ("string".data), pos)
      else
        let vn := selValueLen text pos
        let valueText := (text.drop pos).take vn
        some (selClassifyValue base valueStart valueText, pos + vn)
    match valueStep with
    | none => none
    | some (valToks, pos) =>
      let commaStep : List SemTok × Nat :=
        if pos < text.length ∧ charAt text pos = ',' then
          (emitTok base pos 1 ("operator".data), pos + 1)
        else ([], pos)
      let pos := if commaStep.2 = startPos then commaStep.2 + 1 else commaStep.2
      match selLoopF fuel text base pos with
      | none => none
      | some (restToks, pos) =>
        some (keyToks ++ eqStep.1 ++ bangStep.1 ++ valToks ++ commaStep.1
          ++ restToks, pos)

/-- `tokenizeSelector` of the source. -/
def tokenizeSelector (text : Str) (base : Nat) : Option (List SemTok) :=
  if 0 + 1 < text.length ∧ charAt text 0 = '@' then
    let toks0 := emitTok base 0 2 ("enum".data)
    let pos := 2
    if pos ≥ text.length ∨ charAt text pos ≠ '[' then some toks0 else
    let toks1 := emitTok base pos 1 ("operator".data)
    match selLoopF (text.length + 2) text base (pos + 1) with
    | none => none
    | some (toksLoop, pos) =>
      if pos < text.length ∧ charAt text pos = ']' then
        some (toks0 ++ toks1 ++ toksLoop ++ emitTok base pos 1 ("operator".data))
      else some (toks0 ++ toks1 ++ toksLoop)
  else some (emitTok base 0 text.length ("variable".data))

/-! ## Semantic classifier -/

/-- `mapParserToTokenType` of the source (`!parser` is true for both
`undefined` and the empty string). -/
def mapParserToTokenType (parser : Option Str) : Str :=
  match parser with
  | none => "variable".data
  | some p =>
    if p = [] then "variable".data
    else if p = "brigadier:string".data ∨ p = "brigadier:text".data then "string".data
    else if p = "brigadier:integer".data ∨ p = "brigadier:float".data
        ∨ p = "brigadier:double".data ∨ p = "brigadier:long".data then "number".data
    else if p = "brigadier:bool".data then "enumMember".data
    else if jsStartsWith p ("minecraft:entity".data)
        ∨ p = "minecraft:game_profile".data then "variable".data
    else if p = "minecraft:score_holder".data then "variable".data
    else if p = "minecraft:objective".data then "class".data
    else if p = "minecraft:objective_criteria".data then "enum".data
    else if p = "minecraft:team".data then "class".data
    else if p = "minecraft:function".data then "method".data
    else if p = "minecraft:loot_table".data ∨ p = "minecraft:loot_predicate".data
        ∨ p = "minecraft:loot_modifier".data then "method".data
    else if p = "minecraft:resource_location".data then "method".data
    else if p = "minecraft:resource_key".data ∨ p = "minecraft:resource".data
        ∨ p = "minecraft:resource_or_tag".data
        ∨ p = "minecraft:resource_or_tag_key".data
        ∨ p = "minecraft:resource_selector".data then "type".data
    else if p = "minecraft:block_state".data
        ∨ p = "minecraft:block_predicate".data then "type".data
    else if p = "minecraft:item_stack".data
        ∨ p = "minecraft:item_predicate".data then "type".data
    else if p = "minecraft:nbt_compound_tag".data
        ∨ p = "minecraft:nbt_tag".data then "interface".data
    else if p = "minecraft:nbt_path".data then "property".data
    else if p = "minecraft:gamemode".data then "enum".data
    else if p = "minecraft:color".data ∨ p = "minecraft:hex_color".data then "enum".data
    else if p = "minecraft:block_pos".data ∨ p = "minecraft:column_pos".data
        ∨ p = "minecraft:vec2".data ∨ p = "minecraft:vec3".data
        ∨ p = "minecraft:rotation".data then "number".data
    else if p = "minecraft:int_range".data ∨ p = "minecraft:float_range".data then
      "number".data
    else if p = "minecraft:message".data ∨ p = "minecraft:component".data
        ∨ p = "minecraft:style".data then "string".data
    else if p = "minecraft:dimension".data then "namespace".data
    else if p = "minecraft:swizzle".data then "property".data
    else if p = "minecraft:operation".data then "operator".data
    else if p = "minecraft:item_slot".data ∨ p = "minecraft:item_slots".data then
      "property".data
    else if p = "minecraft:scoreboard_slot".data then "property".data
    else if p = "minecraft:time".data then "number".data
    else "variable".data

/-- The namespace class `[a-z0-9_.-]` of the resource-location patterns. -/
def rlClsA (c : Char) : Bool :=
  isLowerCh c || isDigitCh c || c = '_' || c = '.' || c = '-'

/-- The path class (lowercase letters, digits, `_`, `.`, slash, `-`) of
the id pattern in `parseComplexArgument`. -/
def rlClsB (c : Char) : Bool :=
  isLowerCh c || isDigitCh c || c = '_' || c = '.' || c = '/' || c = '-'

/-- The path class `[a-z0-9_/.:-]` (with `:`) of the surface patterns. -/
def rlClsC (c : Char) : Bool := rlClsB c || c = ':'

/-- The id match of `parseComplexArgument`: a namespaced id
(`rlClsA`-chars, `:`, `rlClsB`-chars) or a bare `rlClsB` id, anchored at
the start. -/
def idMatch (s : Str) : Option Str :=
  let a := s.takeWhile rlClsA
  let alt1 : Option Str :=
    if a ≠ [] then
      match s.drop a.length with
      | ':' :: rest =>
        let b := rest.takeWhile rlClsB
        if b ≠ [] then some (a ++ ':' :: b) else none
      | _ => none
    else none
  match alt1 with
  | some r => some r
  | none =>
    let b := s.takeWhile rlClsB
    if b ≠ [] then some b else none

/-- `/^@[aeprs](\[.*\])?$/` (entity-selector surface pattern). -/
def selPatRe (s : Str) : Bool :=
  match s with
  | '@' :: c :: rest =>
    (c = 'a' ∨ c = 'e' ∨ c = 'p' ∨ c = 'r' ∨ c = 's')
    ∧ (rest = [] ∨ (rest.head? = some '[' ∧ rest.getLast? = some ']'
        ∧ rest.length ≥ 2))
  | _ => false

/-- Adjacent `}[` with at least one character after the `[` (used for the
`(\{.*\})?(\[.*\])?$` tail with both groups present). -/
def hasCloseThenOpenBracket : Str → Bool
  | '}' :: '[' :: _ :: _ => true
  | _ :: rest => hasCloseThenOpenBracket rest
  | [] => false

/-- The tail `(\{.*\})?(\[.*\])?$` of the resource-location surface pattern
(`.` modelled as any character). -/
def rlTailMatch (rest : Str) : Bool :=
  match rest with
  | [] => true
  | '{' :: m =>
    (!m.isEmpty && m.getLast? == some '}')
    || (m.getLast? == some ']' && hasCloseThenOpenBracket ('{' :: m))
  | '[' :: m => !m.isEmpty && m.getLast? == some ']'
  | _ => false

/-- `/^#?[a-z0-9_.-]+:[a-z0-9_/.:-]+(\{.*\})?(\[.*\])?$/` (resource-location
surface pattern of the grammar-backed walk). -/
def rlPatRe (s : Str) : Bool :=
  let s := match s with
    | '#' :: r => r
    | _ => s
  let a := s.takeWhile rlClsA
  if a = [] then false else
  match s.drop a.length with
  | ':' :: rest =>
    let c := rest.takeWhile rlClsC
    c ≠ [] ∧ rlTailMatch (rest.drop c.length)
  | _ => false

/-- `/^#?[a-z0-9_.-]+:[a-z0-9_/.:-]+$/` (the fallback classifier's
resource-location pattern, without the suffix groups). -/
def rlSimpleRe (s : Str) : Bool :=
  let s := match s with
    | '#' :: r => r
    | _ => s
  let a := s.takeWhile rlClsA
  if a = [] then false else
  match s.drop a.length with
  | ':' :: rest =>
    let c := rest.takeWhile rlClsC
    c ≠ [] ∧ rest.drop c.length = []
  | _ => false

/-- `/^\{.*\}$/` (data-block surface pattern). -/
def nbtPatRe (s : Str) : Bool :=
  s.head? = some '{' ∧ s.getLast? = some '}' ∧ s.length ≥ 2

/-- The parser-id part of `isComplexByParser` in the semantic walk. -/
def complexParserTest (p : Str) : Bool :=
  containsSub p ("entity".data)
  || p == "minecraft:score_holder".data
  || p == "minecraft:game_profile".data
  || p == "minecraft:resource_location".data
  || p == "minecraft:block_state".data
  || p == "minecraft:block_predicate".data
  || p == "minecraft:item_stack".data
  || p == "minecraft:item_predicate".data
  || p == "minecraft:nbt_compound_tag".data
  || p == "minecraft:nbt_tag".data
  || p == "minecraft:nbt_path".data
  || listMem REGISTRY_PROPERTY_PARSERS p

/-- JavaScript truthiness of the optional parser string (`undefined` and
`""` are falsy). -/
def parserTruthy (parser : Option Str) : Bool :=
  match parser with
  | some p => p ≠ []
  | none => false

/-- `parseComplexArgument` of the source. -/
def parseComplexArgument (text : Str) (startOffset : Nat) (parser : Str) :
    Option (List SemTok) :=
  let branch : Option (Option (List SemTok)) :=
    if parser = "minecraft:score_holder".data
        ∨ parser = "minecraft:game_profile".data then
      some (if jsStartsWith text ("@".data) then tokenizeSelector text startOffset
        else some [⟨startOffset, text.length, "parameter".data⟩])
    else if containsSub parser ("entity".data) then
      some (tokenizeSelector text startOffset)
    else if parser = "minecraft:nbt_compound_tag".data
        ∨ parser = "minecraft:nbt_tag".data then
      some (tokenizeNbt text startOffset)
    else if parser = "minecraft:nbt_path".data then
      some (tokenizeNbtPath text startOffset)
    else none
  match branch with
  | some r => r
  | none =>
    let idToks : Option (List SemTok) :=
      if parser = "minecraft:resource_location".data
          ∨ parser = "minecraft:block_state".data
          ∨ parser = "minecraft:block_predicate".data
          ∨ parser = "minecraft:item_stack".data
          ∨ parser = "minecraft:item_predicate".data
          ∨ listMem REGISTRY_PROPERTY_PARSERS parser then
        let hashToks := if jsStartsWith text ("#".data) then
            [SemTok.mk startOffset 1 ("operator".data)] else []
        let tagOffset := if jsStartsWith text ("#".data) then 1 else 0
        let workText := if jsStartsWith text ("#".data) then text.drop 1 else text
        match idMatch workText with
        | some id =>
          let idStart := startOffset + tagOffset
          let parts := jsSplit ':' id
          let pathTokenType :=
            if parser = "minecraft:function".data then "method".data
            else if parser = "minecraft:resource_location".data
                ∨ parser = "minecraft:loot_table".data
                ∨ parser = "minecraft:loot_predicate".data then "method".data
            else "type".data
          let p0 := parts.getD 0 []
          let idToks :=
            if parts.length > 1 then
              [ SemTok.mk idStart p0.length pathTokenType
              , SemTok.mk (idStart + p0.length) 1 ("operator".data)
              , SemTok.mk (idStart + p0.length + 1) (parts.getD 1 []).length
                  pathTokenType ]
            else [SemTok.mk idStart id.length pathTokenType]
          if workText.length > id.length then
            let remainder := workText.drop id.length
            let remainderStart := idStart + id.length
            match tokenizeIdSuffix remainder remainderStart with
            | none => none
            | some sufToks => some (hashToks ++ idToks ++ sufToks)
          else some (hashToks ++ idToks)
        | none => some hashToks
      else some []
    match idToks with
    | none => none
    | some ts =>
      if ts.length = 0 then
        some [⟨startOffset, text.length, mapParserToTokenType (some parser)⟩]
      else some ts

/-- The token loop of `getCommandSemanticTokens` (the grammar-backed walk). -/
def semLoopF (tree : CommandNode) :
    Nat → List RangeTok → List CommandNode → Bool → Bool → Option (List SemTok)
  | 0, _, _, _, _ => none
  | _ + 1, [], _, _, _ => some []
  | fuel + 1, token :: restRanges, currentNodes, isFirstLiteral, afterRun =>
    let tokenValue :=
      if jsStartsWith token.value ("/".data) then token.value.drop 1
      else token.value
    let matchRes : Option (CommandNode × Str × Bool × Bool) :=
      match findLiteralNode currentNodes tokenValue with
      | some lit0 =>
        let matched := redirTarget tree lit0
        let cond := isFirstLiteral ∨ afterRun
        let matchType : Str := if cond then "keyword".data else "function".data
        let isFirstLiteral' := if cond then false else isFirstLiteral
        let afterRun' := if cond then false else afterRun
        let afterRun' := if tokenValue = "run".data then true else afterRun'
        some (matched, matchType, isFirstLiteral', afterRun')
      | none =>
        match findFirstArgChild currentNodes with
        | some child =>
          some (redirTarget tree child, mapParserToTokenType child.parser,
            isFirstLiteral, afterRun)
        | none => none
    match matchRes with
    | none => some []
    | some (matched, matchType, isFirstLiteral', afterRun') =>
      let currentNodes' := if tokenValue = "run".data then [tree] else [matched]
      let parser := matched.parser
      if parserTruthy parser ∧ isCoordinateParser (parser.getD []) then
        let count := getParserTokenCount (parser.getD [])
        let consumed := (token :: restRanges).take count
        let coordToks := consumed.map (fun t =>
          SemTok.mk t.start t.length ("number".data))
        match semLoopF tree fuel ((token :: restRanges).drop count) currentNodes'
            isFirstLiteral' afterRun' with
        | none => none
        | some rest => some (coordToks ++ rest)
      else
        let isComplexByParser := parserTruthy parser
          && complexParserTest (parser.getD [])
        let isSelector := selPatRe token.value
        let isResourceLocation := rlPatRe token.value
        let isNbt := nbtPatRe token.value
        let isNumber := numSuffixRe token.value
        let isComplexByPattern := isSelector || isResourceLocation || isNbt
        if isComplexByParser || isComplexByPattern then
          let effectiveParser : Option Str :=
            match parser with
            | some p => some p
            | none =>
              if isSelector then some ("minecraft:entity".data)
              else if isResourceLocation then
                some ("minecraft:resource_location".data)
              else if isNbt then some ("minecraft:nbt_compound_tag".data)
              else none
          match parseComplexArgument token.value token.start
              (effectiveParser.getD []) with
          | none => none
          | some subToks =>
            match semLoopF tree fuel restRanges currentNodes' isFirstLiteral'
                afterRun' with
            | none => none
            | some rest => some (subToks ++ rest)
        else if isNumber then
          match semLoopF tree fuel restRanges currentNodes' isFirstLiteral'
              afterRun' with
          | none => none
          | some rest =>
            some (SemTok.mk token.start token.length ("number".data) :: rest)
        else
          let finalType :=
            if parserTruthy parser then mapParserToTokenType parser
            else matchType
          match semLoopF tree fuel restRanges currentNodes' isFirstLiteral'
              afterRun' with
          | none => none
          | some rest => some (SemTok.mk token.start token.length finalType :: rest)

/-- The computation part of `getCommandSemanticTokens` (the walk over
`tokenizeWithRanges`, run on a cache miss with a grammar present). -/
def computeCommandSemanticTokens (tree : CommandNode) (command : Str) :
    Option (List SemTok) :=
  let ranges := tokenizeWithRanges command
  semLoopF tree (ranges.length + 1) ranges [tree] true false

/-- The fixed sub-command word list of the fallback classifier. -/
def fallbackKeywords : List Str :=
  [ "run".data, "as".data, "at".data, "if".data, "unless".data, "store".data
  , "positioned".data, "rotated".data, "anchored".data, "objectives".data
  , "players".data, "add".data, "set".data, "remove".data, "get".data
  , "modify".data, "merge".data, "on".data, "passengers".data ]

/-- The token loop of `getFallbackSemanticTokens`. -/
def fallbackSemAux : List RangeTok → Bool → Option (List SemTok)
  | [], _ => some []
  | token :: rest, isFirst =>
    let startsSlash := jsStartsWith token.value ("/".data)
    let tokenValue := if startsSlash then token.value.drop 1 else token.value
    if isFirst then
      match fallbackSemAux rest false with
      | none => none
      | some toks =>
        some (SemTok.mk (token.start + (if startsSlash then 1 else 0))
          tokenValue.length ("keyword".data) :: toks)
    else
      let here : Option (List SemTok) :=
        if selPatRe tokenValue then
          tokenizeSelector tokenValue token.start
        else if rlSimpleRe tokenValue then
          let parts := jsSplit ':' tokenValue
          let p0 := parts.getD 0 []
          some [ SemTok.mk token.start p0.length ("method".data)
            , SemTok.mk (token.start + p0.length) 1 ("operator".data)
            , SemTok.mk (token.start + p0.length + 1) (parts.getD 1 []).length
                ("method".data) ]
        else if numSuffixRe tokenValue then
          some [SemTok.mk token.start token.length ("number".data)]
        else if listMem fallbackKeywords tokenValue then
          some [SemTok.mk token.start token.length ("function".data)]
        else
          some [SemTok.mk token.start token.length ("variable".data)]
      match here, fallbackSemAux rest false with
      | some hs, some toks => some (hs ++ toks)
      | _, _ => none

/-- `getFallbackSemanticTokens` of the source. -/
def getFallbackSemanticTokens (command : Str) : Option (List SemTok) :=
  fallbackSemAux (tokenizeWithRanges command) true

/-- `getCommandSemanticTokens` of the source: cache lookup, fallback when no
grammar is loaded, else the walk; on a miss the result is inserted after
evicting the oldest entry once `MAX_CACHE_SIZE` is reached. Returns the
spans and the updated manager state. -/
def getCommandSemanticTokens (m : Spyglass) (command : Str) :
    Option (List SemTok × Spyglass) :=
  match lookupAssoc m.commandTokensCache command with
  | some cached => some (cached, m)
  | none =>
    if ¬ m.initialized then
      match getFallbackSemanticTokens command with
      | none => none
      | some toks => some (toks, m)
    else
      match m.commandTree with
      | none =>
        match getFallbackSemanticTokens command with
        | none => none
        | some toks => some (toks, m)
      | some tree =>
        match computeCommandSemanticTokens tree command with
        | none => none
        | some semanticTokens =>
          let cache :=
            if m.commandTokensCache.length ≥ MAX_CACHE_SIZE then
              match m.commandTokensCache with
              | [] => ([] : List (Str × List SemTok))
              | _ :: rest => rest
            else m.commandTokensCache
          some (semanticTokens,
            { m with commandTokensCache := cache ++ [(command, semanticTokens)] })

/-! ## Specification-side notions used by the claims -/

/-- The command string corresponding to a token sequence: the tokens joined
by single spaces. -/
def joinTokens (tokens : List Str) : Str := joinSep (" ".data) tokens

/-- A token that round-trips through the primary tokenizer: non-empty, free
of spaces, quotes, braces/brackets and other whitespace. -/
def PlainTok (t : Str) : Prop :=
  t ≠ [] ∧ ∀ c ∈ t, c ≠ '"' ∧ c ≠ '{' ∧ c ≠ '[' ∧ c ≠ '}' ∧ c ≠ ']'
    ∧ isJsWs c = false

/-- `redirResolves tree child target`: the node traversal continues from
after matching `child` when every redirect resolves — `child` itself when it
carries none, the resolved node otherwise. -/
def redirResolves (tree child target : CommandNode) : Prop :=
  match child.redirect with
  | none => target = child
  | some path => resolveRedirect tree path = some target

/-- The value formats the engine declares for its checked parsers
(integer/float/double/boolean/gamemode); every other parser accepts any
token. -/
def formatOk (parser : Option Str) (token : Str) : Prop :=
  match parser with
  | none => True
  | some p =>
    (p = "brigadier:integer".data → intRe token = true)
    ∧ ((p = "brigadier:float".data ∨ p = "brigadier:double".data) →
        numRe token = true)
    ∧ (p = "brigadier:bool".data → token = "true".data ∨ token = "false".data)
    ∧ (p = "minecraft:gamemode".data →
        listMem validateArgumentFormat.gamemodes token = true)

/-- A value-format violation of one of the four checked parsers (the
conditions under which `validateArgument` reports an `error`-severity
entry), as a decidable predicate following the same branch structure. -/
def formatViolationB (p token : Str) : Bool :=
  if p = "brigadier:integer".data then ! intRe token
  else if p = "brigadier:float".data ∨ p = "brigadier:double".data then
    ! numRe token
  else if p = "brigadier:bool".data then
    ! (token == "true".data) && ! (token == "false".data)
  else if p = "minecraft:gamemode".data then
    ! listMem validateArgumentFormat.gamemodes token
  else false

/-- `formatViolationB` lifted to the optional parser of a node. -/
def formatViolationOpt (parser : Option Str) (token : Str) : Bool :=
  match parser with
  | none => false
  | some p => formatViolationB p token

/-- A token sequence accepted by the grammar, read off the spec (§4.2/§8 and
claim C1): a path of matches from the current node that reaches an
executable node exactly when the tokens run out. A literal child named like
the token is matched with precedence; otherwise an argument child consumes
the token (whose value satisfies the declared format) together with
`tokenCount - 1` further tokens; redirects are followed and must resolve. -/
inductive Accepted (tree : CommandNode) : CommandNode → List Str → Prop
  | done (n : CommandNode) (h : n.executable = true) : Accepted tree n []
  | lit (n : CommandNode) (tok : Str) (rest : List Str)
      (child target : CommandNode)
      (hc : childLookup n tok = some child) (ht : child.type = .literal)
      (hr : redirResolves tree child target)
      (hrest : Accepted tree target rest) :
      Accepted tree n (tok :: rest)
  | arg (n : CommandNode) (tok : Str) (extras rest : List Str) (k : Str)
      (child target : CommandNode)
      (hnl : ∀ c, childLookup n tok = some c → c.type ≠ .literal)
      (hm : (k, child) ∈ n.children) (ht : child.type = .argument)
      (hfmt : formatOk child.parser tok)
      (hex : extras.length = getParserTokenCount (child.parser.getD []) - 1)
      (hr : redirResolves tree child target)
      (hrest : Accepted tree target rest) :
      Accepted tree n (tok :: (extras ++ rest))

/-- At most one argument-typed child. -/
def uniArg (n : CommandNode) : Bool :=
  (n.children.filter (fun kv => decide (kv.2.type = .argument))).length ≤ 1

/-- `P` holds at a node and, hereditarily, at all its children. -/
inductive AllNodes (P : CommandNode → Prop) : CommandNode → Prop
  | mk (n : CommandNode) (hp : P n)
      (hc : ∀ k c, (k, c) ∈ n.children → AllNodes P c) : AllNodes P n

/-- Run a sequence of semantic-token queries, threading the manager state
(a query that runs out of fuel leaves the state unchanged). -/
def runSemanticCalls (m : Spyglass) : List Str → Spyglass
  | [] => m
  | cmd :: rest =>
    match getCommandSemanticTokens m cmd with
    | some (_, m') => runSemanticCalls m' rest
    | none => runSemanticCalls m rest

/-! ## Example grammars used by the concrete claims -/

/-- `give → targets → item(executable)` item node: a registry-backed
`minecraft:item_stack` argument marked executable (§8 of the spec). -/
def itemNode : CommandNode :=
  .mk .argument [] true (some ("minecraft:item_stack".data)) none none

/-- `give` grammar: the entity-parser argument. -/
def targetsNode : CommandNode :=
  .mk .argument [(("item".data), itemNode)] false
    (some ("minecraft:entity".data)) none none

/-- `give` grammar: the root literal. -/
def giveNode : CommandNode :=
  .mk .literal [(("targets".data), targetsNode)] false none none none

/-- The `give` command tree of §8. -/
def giveTree : CommandNode :=
  .mk .root [(("give".data), giveNode)] false none none none

/-- Registries holding the `item` registry with `minecraft:stone`. -/
def giveRegs : List (Str × List Str) :=
  [(("item".data), ["minecraft:stone".data])]

/-- An initialized manager with the `give` grammar. -/
def giveState : Spyglass := ⟨true, some giveTree, giveRegs, []⟩

/-- `tp → pos(vec3, executable)`: the three-axis coordinate argument. -/
def posNode : CommandNode :=
  .mk .argument [] true (some ("minecraft:vec3".data)) none none

/-- The `tp` literal. -/
def tpNode : CommandNode :=
  .mk .literal [(("pos".data), posNode)] false none none none

/-- The `tp` command tree of claim C6. -/
def tpTree : CommandNode :=
  .mk .root [(("tp".data), tpNode)] false none none none

/-- An initialized manager with the `tp` grammar. -/
def tpState : Spyglass := ⟨true, some tpTree, [], []⟩

/-- A `minecraft:nbt_compound_tag` argument marked executable. -/
def nbtArgNode : CommandNode :=
  .mk .argument [] true (some ("minecraft:nbt_compound_tag".data)) none none

/-- The `data` literal leading to the data-notation argument. -/
def dataNode : CommandNode :=
  .mk .literal [(("nbt".data), nbtArgNode)] false none none none

/-- The `data` command tree of claim C9. -/
def dataTree : CommandNode :=
  .mk .root [(("data".data), dataNode)] false none none none

/-- An initialized manager with the `data` grammar and an empty cache. -/
def dataState : Spyglass := ⟨true, some dataTree, [], []⟩

/-- The input of claim C9's failing run: `data {"a` followed by a single
backslash (9 characters; the quoted key never closes and ends in an
escape). -/
def c9Command : Str := "data ".data ++ ['{', '"', 'a', '\\']

/-- An integer argument directly below the root (accepted sequences may
start with an argument match). -/
def rootIntArg : CommandNode :=
  .mk .argument [] true (some ("brigadier:integer".data)) none none

/-- A grammar whose root has an argument child (claim C1, counterexample
part 1). -/
def treeRootArg : CommandNode :=
  .mk .root [(("n".data), rootIntArg)] false none none none

/-- State for the root-argument grammar. -/
def stateRootArg : Spyglass := ⟨true, some treeRootArg, [], []⟩

/-- An executable integer argument. -/
def countArg : CommandNode :=
  .mk .argument [] true (some ("brigadier:integer".data)) none none

/-- An executable boolean argument. -/
def msgArg : CommandNode :=
  .mk .argument [] true (some ("brigadier:bool".data)) none none

/-- A literal with two argument children (claim C1, counterexample part 2:
the walker validates against the first, acceptance may use the second). -/
def fooNode : CommandNode :=
  .mk .literal [(("count".data), countArg), (("msg".data), msgArg)]
    false none none none

/-- Grammar with two sibling argument children. -/
def treeTwoArgs : CommandNode :=
  .mk .root [(("foo".data), fooNode)] false none none none

/-- State for the two-argument grammar. -/
def stateTwoArgs : Spyglass := ⟨true, some treeTwoArgs, [], []⟩

/-- An executable literal `c` below a literal named `run`. -/
def cNode : CommandNode := .mk .literal [] true none none none

/-- A literal named `run` inside a grammar (claim C1, counterexample part 3:
the token `run` resets the walk to the root). -/
def runNode : CommandNode :=
  .mk .literal [(("c".data), cNode)] false none none none

/-- The literal above `run`. -/
def aNode : CommandNode :=
  .mk .literal [(("run".data), runNode)] false none none none

/-- Grammar containing a `run` literal. -/
def treeRunLit : CommandNode :=
  .mk .root [(("a".data), aNode)] false none none none

/-- State for the `run`-literal grammar. -/
def stateRunLit : Spyglass := ⟨true, some treeRunLit, [], []⟩

/-- A literal child next to an argument child (claim C3's counterexample:
`traverse` collects the argument even when the literal matches). -/
def litChildA : CommandNode := .mk .literal [] true none none none

/-- The argument sibling. -/
def argChildB : CommandNode :=
  .mk .argument [] true (some ("brigadier:integer".data)) none none

/-- Grammar with a literal and an argument below the root. -/
def treeLitArg : CommandNode :=
  .mk .root [(("a".data), litChildA), (("b".data), argChildB)] false none none none

/-- A literal carrying an unresolvable redirect path (claim C4). -/
def badRedirNode : CommandNode :=
  .mk .literal [] false none none (some ["zzz".data])

/-- Grammar with an unresolvable redirect. -/
def treeBadRedir : CommandNode :=
  .mk .root [(("a".data), badRedirNode)] false none none none

/-- A single executable literal `x` (claim C10's witness grammar). -/
def xNode : CommandNode := .mk .literal [] true none none none

/-- The one-literal command tree. -/
def xTree : CommandNode :=
  .mk .root [(("x".data), xNode)] false none none none

/-- An initialized manager with the one-literal grammar and an empty cache. -/
def xState : Spyglass := ⟨true, some xTree, [], []⟩

/-- A cache already at capacity (100 entries, keys different from `x`). -/
def fullCache : List (Str × List SemTok) :=
  List.replicate MAX_CACHE_SIZE (("y".data, ([] : List SemTok)))

set_option maxRecDepth 40000

/-! ## Claim theorems -/

/-- C2: with the `give` grammar (literal `give`, entity-parser argument,
registry-backed executable argument), `validateCommand "give @s"` with
`ignoreIncomplete = false` yields exactly one `error`-severity entry whose
message marks an incomplete command, spanning offset `0` with the whole
input's length (7); with `ignoreIncomplete = true` it yields no entries. -/
theorem C2_incomplete_command_give :
    validateCommand giveState ("give @s".data) false =
      some [⟨0, ("give @s".data).length,
        "Incomplete command. Expected: <item>".data, .error⟩]
    ∧ jsStartsWith ("Incomplete command. Expected: <item>".data)
        ("Incomplete command".data) = true
    ∧ ("give @s".data).length = 7
    ∧ validateCommand giveState ("give @s".data) true = some [] := by
  decide

/-- C5: the claim states that a backslash-escaped double quote inside a
quoted region does not close it. In the code, the escape check compares the
one-character string `text[i - 1]` with the two-character literal `"\\\\"`,
so it never detects an escape (first conjunct: the check passes even right
after a backslash); consequently the escaped quote in `a "b\" c" d` closes
the region and the following space splits the token: the quoted region
`"b\" c"` comes out as the two tokens `"b\"` and `c" d` instead of one. -/
theorem C5_escaped_quote_closes_string :
    prevNotEscapePair (some '\\') = true
    ∧ tokenize ("a ".data ++ ['"', 'b', '\\', '"'] ++ " c".data ++ ['"'] ++ " d".data)
      = ["a".data, ['"', 'b', '\\', '"'], ['c', '"', ' ', 'd']] := by
  decide

/-- C6: with the `tp` grammar (literal to a three-axis coordinate argument),
`traverse` on the three tokens of `tp 1 2` reports one pending coordinate
token, and the completion engine with the cursor after `tp 1 2 ` (current
partial input empty) offers exactly the three single-coordinate candidates
`~`, `^`, `0` and nothing else. -/
theorem C6_mid_coordinate_completions :
    (traverse tpTree tpTree ["tp".data, "1".data, "2".data]).map
        (fun r => r.midCoord) = some 1
    ∧ (getCommandCompletions tpState ("tp 1 2 ".data) 7 []).map
        (fun l => l.map (fun i => i.label))
      = some ["~".data, "^".data, "0".data] := by
  decide

/-- C8: the claim states every micro-tokenizer terminates on every input.
`tokenizeNbtPath` does not: on the input `{x` the brace never closes, the
balancing scan leaves `end = pos`, and the loop re-enters at the same
position for ever — the fuelled embedding returns `none` for every fuel. -/
theorem C8_nbt_path_divergence :
    (∀ fuel, nbtPathLoopF fuel ("\x7bx".data) 0 0 = none)
    ∧ tokenizeNbtPath ("\x7bx".data) 0 = none := by
  constructor
  · intro fuel
    induction fuel with
    | zero => rfl
    | succ n ih =>
      have h : nbtPathLoopF (n + 1) ("\x7bx".data) 0 0 =
          (match nbtPathLoopF n ("\x7bx".data) 0 0 with
            | none => none
            | some rest => some (([] : List SemTok) ++ rest)) := rfl
      rw [h, ih]
  · decide

/-- C9: the claim states every emitted span stays within the input. With the
`data` grammar and the 9-character input `data {"a\` (unterminated quoted
key ending in a backslash), the quoted-key scan advances two positions past
the backslash, beyond the end of the text, and the semantic classifier
emits a `property` span with `start = 6`, `length = 4`:
`start + length = 10` exceeds the input length 9. -/
theorem C9_out_of_bounds_span :
    (getCommandSemanticTokens dataState c9Command).map (fun r => r.1) =
      some [⟨0, 4, "keyword".data⟩, ⟨5, 1, "operator".data⟩,
        ⟨6, 4, "property".data⟩]
    ∧ c9Command.length = 9
    ∧ 6 + 4 > c9Command.length := by
  decide

/-! ### Lemmas about the matching steps -/

/-- A hit of the literal-match loop really is a literal child named like the
token of one of the current nodes. -/
theorem findLiteralNode_some (nodes : List CommandNode) (tok : Str)
    (c : CommandNode) (h : findLiteralNode nodes tok = some c) :
    ∃ n ∈ nodes, childLookup n tok = some c ∧ c.type = .literal := by
  induction nodes with
  | nil => simp [findLiteralNode] at h
  | cons n rest ih =>
    rw [findLiteralNode] at h
    rcases hc : childLookup n tok with _ | c'
    · rw [hc] at h
      dsimp only at h
      obtain ⟨m, hm, h2⟩ := ih h
      exact ⟨m, List.mem_cons_of_mem _ hm, h2⟩
    · rw [hc] at h
      dsimp only at h
      by_cases ht : c'.type = .literal
      · rw [if_pos ht] at h
        cases h
        exact ⟨n, List.mem_cons_self _ _, hc, ht⟩
      · rw [if_neg ht] at h
        obtain ⟨m, hm, h2⟩ := ih h
        exact ⟨m, List.mem_cons_of_mem _ hm, h2⟩

/-- When the literal-match loop misses, no current node has a literal child
named like the token. -/
theorem findLiteralNode_none (nodes : List CommandNode) (tok : Str)
    (h : findLiteralNode nodes tok = none) :
    ∀ n ∈ nodes, ∀ c, childLookup n tok = some c → c.type ≠ .literal := by
  induction nodes with
  | nil => intro n hn; cases hn
  | cons n rest ih =>
    rw [findLiteralNode] at h
    intro m hm c hc
    rcases List.mem_cons.mp hm with heq | hmem
    · subst heq
      rw [hc] at h
      dsimp only at h
      intro ht
      rw [if_pos ht] at h
      cases h
    · rcases hc' : childLookup n tok with _ | c'
      · rw [hc'] at h
        dsimp only at h
        exact ih h m hmem c hc
      · rw [hc'] at h
        dsimp only at h
        by_cases ht : c'.type = .literal
        · rw [if_pos ht] at h; cases h
        · rw [if_neg ht] at h
          exact ih h m hmem c hc

/-- `travChildStep` never drops a collected node. -/
theorem travChildStep_mono (tree : CommandNode) (arg : Str) (st : TravStep)
    (kv : Str × CommandNode) (x : CommandNode) (h : x ∈ st.nextNodes) :
    x ∈ (travChildStep tree arg st kv).nextNodes := by
  rcases kv with ⟨k, c⟩
  unfold travChildStep
  rcases c.type with _ | _ | _
  · exact h
  · by_cases hk : k = arg
    · simp only [if_pos hk]
      exact List.mem_append_left _ h
    · simpa [if_neg hk] using h
  · exact List.mem_append_left _ h

/-- Folding `travChildStep` over a child list never drops a collected node. -/
theorem foldl_travChildStep_mono (tree : CommandNode) (arg : Str)
    (l : List (Str × CommandNode)) :
    ∀ st x, x ∈ st.nextNodes →
      x ∈ (l.foldl (travChildStep tree arg) st).nextNodes := by
  induction l with
  | nil => intro st x h; simpa using h
  | cons kv rest ih =>
    intro st x h
    exact ih _ _ (travChildStep_mono tree arg st kv x h)

/-- Every argument child in the list ends up collected (with its redirect
target) by the `travChildStep` fold. -/
theorem foldl_travChildStep_mem (tree : CommandNode) (arg : Str)
    (l : List (Str × CommandNode)) (k : Str) (c : CommandNode)
    (hm : (k, c) ∈ l) (ht : c.type = .argument) :
    ∀ st, redirTarget tree c ∈ (l.foldl (travChildStep tree arg) st).nextNodes := by
  induction l with
  | nil => cases hm
  | cons kv rest ih =>
    intro st
    rcases List.mem_cons.mp hm with heq | hmem
    · subst heq
      refine foldl_travChildStep_mono tree arg rest _ _ ?_
      unfold travChildStep
      rw [ht]
      exact List.mem_append_right _ (List.mem_singleton.mpr rfl)
    · exact ih hmem _

/-- `travNodeStep` never drops a collected node. -/
theorem foldl_travNodeStep_mono (tree : CommandNode) (arg : Str)
    (nodes : List CommandNode) :
    ∀ st x, x ∈ st.nextNodes →
      x ∈ (nodes.foldl (travNodeStep tree arg) st).nextNodes := by
  induction nodes with
  | nil => intro st x h; simpa using h
  | cons n rest ih =>
    intro st x h
    exact ih _ _ (foldl_travChildStep_mono tree arg n.children st x h)

/-- Every argument child of every current node is collected by the node
fold of `traverse`. -/
theorem foldl_travNodeStep_mem (tree : CommandNode) (arg : Str)
    (nodes : List CommandNode) (n : CommandNode) (k : Str) (c : CommandNode)
    (hn : n ∈ nodes) (hm : (k, c) ∈ n.children) (ht : c.type = .argument) :
    ∀ st, redirTarget tree c ∈ (nodes.foldl (travNodeStep tree arg) st).nextNodes := by
  induction nodes with
  | nil => cases hn
  | cons m rest ih =>
    intro st
    rw [List.foldl_cons]
    rcases List.mem_cons.mp hn with heq | hmem
    · subst heq
      exact foldl_travNodeStep_mono tree arg rest _ _
        (foldl_travChildStep_mem tree arg n.children k c hm ht st)
    · exact ih hmem _

/-! ### Claims C3 and C4 -/

/-- C3 counterexample: in the grammar with a literal child `a` and an
argument child `b` below the root, `traverse` on the single token `a`
matches the literal — yet the next node set also contains the argument
child `b`, so the step does not consist only of literal matches as the
claim states. -/
theorem C3_counterexample :
    childLookup treeLitArg ("a".data) = some litChildA
    ∧ litChildA.type = .literal
    ∧ traverse treeLitArg treeLitArg ["a".data] = some ⟨[litChildA, argChildB], 0⟩
    ∧ argChildB.type = .argument := by
  exact ⟨rfl, rfl, rfl, rfl⟩

/-- C3 amended: in `validateCommand` a literal match is authoritative —
whenever some current node has a literal child named like the token, every
node the step collects is (the redirect target of) such a literal child, so
no argument child is collected; in `traverse`, however, every argument
child of every current node is collected even at a step with a literal
match (a literal match there only suppresses the multi-token skip). -/
theorem C3_amended_literal_precedence :
    (∀ (tree : CommandNode) (regs : List (Str × List Str))
        (nodes : List CommandNode) (tok : Str) (off : Nat) (hasEx : Bool),
      (∃ n ∈ nodes, ∃ c, childLookup n tok = some c ∧ c.type = .literal) →
      ∀ x ∈ (validateStep tree regs nodes tok off hasEx).nextNodes,
        ∃ n ∈ nodes, ∃ c, childLookup n tok = some c ∧ c.type = .literal
          ∧ x = redirTarget tree c)
    ∧ (∀ (tree : CommandNode) (nodes : List CommandNode) (arg : Str)
        (n : CommandNode) (k : Str) (c : CommandNode),
      n ∈ nodes → (k, c) ∈ n.children → c.type = .argument →
        redirTarget tree c ∈ (traverseStep tree nodes arg).nextNodes) := by
  constructor
  · intro tree regs nodes tok off hasEx hex x hx
    rcases hf : findLiteralNode nodes tok with _ | c₀
    · obtain ⟨n, hn, c, hc, ht⟩ := hex
      exact absurd ht (findLiteralNode_none nodes tok hf n hn c hc)
    · unfold validateStep at hx
      rw [hf] at hx
      simp only [List.mem_singleton] at hx
      obtain ⟨n, hn, hc, ht⟩ := findLiteralNode_some nodes tok c₀ hf
      exact ⟨n, hn, c₀, hc, ht, hx⟩
  · intro tree nodes arg n k c hn hm ht
    exact foldl_travNodeStep_mem tree arg nodes n k c hn hm ht ⟨[], false, 0⟩

/-- Witness for C3's amended statement: in the literal-plus-argument
grammar, the step on token `a` collects only the literal in
`validateCommand`'s walker, while `traverse`'s step still collects the
argument child `b`. -/
theorem C3_witness :
    (∃ n ∈ [treeLitArg], ∃ c, childLookup n ("a".data) = some c
      ∧ c.type = .literal
      ∧ litChildA = redirTarget treeLitArg c)
    ∧ redirTarget treeLitArg argChildB ∈
        (traverseStep treeLitArg [treeLitArg] ("a".data)).nextNodes := by
  constructor
  · exact C3_amended_literal_precedence.1 treeLitArg [] [treeLitArg]
      ("a".data) 0 false
      ⟨treeLitArg, List.mem_singleton.mpr rfl, litChildA, rfl, rfl⟩
      litChildA
      (show litChildA ∈ (validateStep treeLitArg [] [treeLitArg]
          ("a".data) 0 false).nextNodes from List.mem_singleton.mpr rfl)
  · exact C3_amended_literal_precedence.2 treeLitArg [treeLitArg] ("a".data)
      treeLitArg ("b".data) argChildB (List.mem_singleton.mpr rfl)
      (List.mem_cons_of_mem _ (List.mem_singleton.mpr rfl)) rfl

/-- C4 counterexample: the literal `a` carries the redirect path `zzz`,
which does not resolve; `traverse` on the token `a` nevertheless returns a
non-empty node set — the node itself — rather than treating the node as
no-match as the claim states. -/
theorem C4_counterexample :
    resolveRedirect treeBadRedir ["zzz".data] = none
    ∧ badRedirNode.redirect = some ["zzz".data]
    ∧ traverse treeBadRedir treeBadRedir ["a".data] = some ⟨[badRedirNode], 0⟩ := by
  exact ⟨rfl, rfl, rfl⟩

/-- C4 amended: a node whose redirect path does not resolve is traversed as
the node itself — the walkers fall back to the unredirected node (its own
children) and, being total functions, never crash; in particular the
literal-match step of `validateCommand` collects exactly the node itself. -/
theorem C4_amended_unresolved_redirect_self (tree node : CommandNode)
    (path : List Str) (hred : node.redirect = some path)
    (hnone : resolveRedirect tree path = none) :
    redirTarget tree node = node
    ∧ ∀ (regs : List (Str × List Str)) (nodes : List CommandNode) (tok : Str)
        (off : Nat) (hasEx : Bool),
      findLiteralNode nodes tok = some node →
      (validateStep tree regs nodes tok off hasEx).nextNodes = [node] := by
  have htarget : redirTarget tree node = node := by
    unfold redirTarget
    rw [hred]
    show (match resolveRedirect tree path with
      | some r => r
      | none => node) = node
    rw [hnone]
  refine ⟨htarget, ?_⟩
  intro regs nodes tok off hasEx hfind
  unfold validateStep
  rw [hfind]
  show [redirTarget tree node] = [node]
  rw [htarget]

/-- Witness for C4's amended statement at the unresolvable-redirect
grammar. -/
theorem C4_witness :
    redirTarget treeBadRedir badRedirNode = badRedirNode
    ∧ (validateStep treeBadRedir [] [treeBadRedir] ("a".data) 0
        false).nextNodes = [badRedirNode] := by
  have h := C4_amended_unresolved_redirect_self treeBadRedir badRedirNode
    ["zzz".data] rfl rfl
  exact ⟨h.1, h.2 [] [treeBadRedir] ("a".data) 0 false rfl⟩

/-! ### Severity of the per-argument checks (claims C7 and C1) -/

/-- Every entry the registry-membership check emits is a `warning`. -/
theorem validateArgumentRegistry_warning (regs : List (Str × List Str))
    (token : Str) (node : CommandNode) (off : Nat) (e : CmdErr)
    (h : validateArgumentRegistry regs token node off = some e) :
    e.severity = .warning := by
  unfold validateArgumentRegistry at h
  split at h
  · cases h
  · split_ifs at h
    · split at h
      · cases h
      · dsimp only at h
        split_ifs at h <;> (cases h; rfl)

/-- An entry of the format-check chain is an `error` exactly on a format
violation of one of the four checked parsers; the only other entry is the
entity-selector heuristic `warning`. -/
theorem validateArgumentFormat_severity (token p : Str) (off : Nat)
    (e : CmdErr) (h : validateArgumentFormat token p off = some e) :
    (e.severity = .error ∧ formatViolationB p token = true)
    ∨ (e.severity = .warning ∧ formatViolationB p token = false) := by
  unfold validateArgumentFormat at h
  unfold formatViolationB
  split_ifs at h ⊢ <;> cases h <;>
    first
    | exact Or.inl ⟨rfl, by simp_all [Bool.not_eq_true]⟩
    | exact Or.inr ⟨rfl, by simp_all [Bool.not_eq_true]⟩

/-- When the format-check chain emits nothing, no format violation holds. -/
theorem validateArgumentFormat_none (token p : Str) (off : Nat)
    (h : validateArgumentFormat token p off = none) :
    formatViolationB p token = false := by
  unfold validateArgumentFormat at h
  unfold formatViolationB
  split_ifs at h ⊢ <;> simp_all [Bool.not_eq_true]

/-- Severity characterization of `validateArgument`: it emits only `error`
and `warning` entries, and an `error` exactly on a value-format violation
(non-integer, non-number, non-boolean, bad gamemode); the entity-selector
heuristic and the registry-membership check emit `warning`s. -/
theorem validateArgument_severity (regs : List (Str × List Str))
    (token : Str) (node : CommandNode) (off : Nat) (e : CmdErr)
    (h : validateArgument regs token node off = some e) :
    (e.severity = .error ∨ e.severity = .warning)
    ∧ (e.severity = .error ↔ formatViolationOpt node.parser token = true) := by
  unfold validateArgument at h
  rcases hp : node.parser with _ | p <;> rw [hp] at h
  · cases h
  · dsimp only at h
    simp only [formatViolationOpt]
    rcases hf : validateArgumentFormat token p off with _ | e' <;> rw [hf] at h
    · dsimp only at h
      have hw := validateArgumentRegistry_warning regs token node off e h
      have hnv := validateArgumentFormat_none token p off hf
      constructor
      · exact Or.inr hw
      · rw [hw, hnv]
        simp
    · have he : e' = e := Option.some.inj h
      subst he
      rcases validateArgumentFormat_severity token p off _ hf with
        ⟨hs, hv⟩ | ⟨hs, hv⟩
      · rw [hs, hv]
        simp
      · rw [hs, hv]
        simp

/-- C7: every value-format violation `validateArgument` reports (wrong
integer/number/boolean syntax, gamemode outside the fixed enumeration) has
severity `error`, and every entry it emits otherwise — the entity-selector
heuristic and registry-membership failures — has severity `warning`; with
the `give` grammar of §8, `validateCommand "give @s not_an_item"` yields
exactly one `warning` entry spanning the third token (offset 8, length 11). -/
theorem C7_severity_taxonomy :
    (∀ (regs : List (Str × List Str)) (token : Str) (node : CommandNode)
        (off : Nat) (e : CmdErr),
      validateArgument regs token node off = some e →
      (e.severity = .error ∨ e.severity = .warning)
      ∧ (e.severity = .error ↔ formatViolationOpt node.parser token = true))
    ∧ validateCommand giveState ("give @s not_an_item".data) false =
        some [⟨8, 11, "Unknown item: minecraft:not_an_item".data, .warning⟩] := by
  constructor
  · exact validateArgument_severity
  · decide

/-- Witness for C7's quantified part: the integer parser rejects `abc` at
offset 3 with an entry whose severity is characterized by the theorem. -/
theorem C7_witness :
    ((CmdErr.mk 3 3 ("Expected integer, got: abc".data) .error).severity = .error
      ∨ (CmdErr.mk 3 3 ("Expected integer, got: abc".data) .error).severity = .warning)
    ∧ ((CmdErr.mk 3 3 ("Expected integer, got: abc".data) .error).severity = .error
      ↔ formatViolationOpt countArg.parser ("abc".data) = true) :=
  C7_severity_taxonomy.1 [] ("abc".data) countArg 3
    ⟨3, 3, "Expected integer, got: abc".data, .error⟩ rfl

/-! ### Cache lemmas (claim C10) -/

/-- Appending a fresh key to an association list makes its lookup hit. -/
theorem lookupAssoc_append_some {α : Type} (l : List (Str × α)) (k : Str)
    (v : α) (h : lookupAssoc l k = none) :
    lookupAssoc (l ++ [(k, v)]) k = some v := by
  induction l with
  | nil => simp [lookupAssoc]
  | cons a t ih =>
    rcases a with ⟨k', v'⟩
    rw [List.cons_append]
    unfold lookupAssoc at h ⊢
    split_ifs at h ⊢
    exact ih h

/-- A key absent from an association list is absent from its tail. -/
theorem lookupAssoc_tail_none {α : Type} (l : List (Str × α)) (k : Str)
    (h : lookupAssoc l k = none) : lookupAssoc l.tail k = none := by
  cases l with
  | nil => rfl
  | cons a t =>
    rcases a with ⟨k', v'⟩
    unfold lookupAssoc at h
    split_ifs at h
    exact h

/-- One semantic-token call never grows the cache beyond `MAX_CACHE_SIZE`. -/
theorem getCommandSemanticTokens_cache_bound (m : Spyglass) (cmd : Str)
    (h : m.commandTokensCache.length ≤ MAX_CACHE_SIZE)
    (s : List SemTok) (m' : Spyglass)
    (hcall : getCommandSemanticTokens m cmd = some (s, m')) :
    m'.commandTokensCache.length ≤ MAX_CACHE_SIZE := by
  unfold getCommandSemanticTokens at hcall
  rcases hl : lookupAssoc m.commandTokensCache cmd with _ | cached <;>
    rw [hl] at hcall
  · dsimp only at hcall
    by_cases hinit : m.initialized = true
    · rw [if_neg (by simp [hinit])] at hcall
      rcases ht : m.commandTree with _ | tree <;> rw [ht] at hcall <;>
        dsimp only at hcall
      · rcases hf : getFallbackSemanticTokens cmd with _ | toks <;>
          rw [hf] at hcall
        · cases hcall
        · cases hcall
          exact h
      · rcases hcomp : computeCommandSemanticTokens tree cmd with _ | toks <;>
          rw [hcomp] at hcall
        · cases hcall
        · cases hcall
          simp only [List.length_append, List.length_cons, List.length_nil]
          by_cases hge : m.commandTokensCache.length ≥ MAX_CACHE_SIZE
          · rw [if_pos hge]
            rcases hc : m.commandTokensCache with _ | ⟨a, rest⟩
            · simp [MAX_CACHE_SIZE]
            · rw [hc] at h
              simp only [List.length_cons] at h
              dsimp only
              omega
          · rw [if_neg hge]
            simp only [MAX_CACHE_SIZE] at hge ⊢
            omega
    · rw [if_pos (by simp [hinit])] at hcall
      rcases hf : getFallbackSemanticTokens cmd with _ | toks <;>
        rw [hf] at hcall
      · cases hcall
      · cases hcall
        exact h
  · dsimp only at hcall
    cases hcall
    exact h

/-- C10: a second `getCommandSemanticTokens` call on the same text returns
the identical span list without changing the state (after a computing call
the text is in the cache and the repeat call is a cache hit); the cache
never exceeds `MAX_CACHE_SIZE = 100` entries over any sequence of calls;
and a computing call with a full cache evicts the oldest-inserted entry
(the head of the insertion-ordered cache) before appending its result. -/
theorem C10_cache_properties :
    (∀ (m : Spyglass) (cmd : Str) (s : List SemTok) (m' : Spyglass),
      getCommandSemanticTokens m cmd = some (s, m') →
      getCommandSemanticTokens m' cmd = some (s, m'))
    ∧ (∀ (m : Spyglass) (cmds : List Str),
      m.commandTokensCache.length ≤ MAX_CACHE_SIZE →
      (runSemanticCalls m cmds).commandTokensCache.length ≤ MAX_CACHE_SIZE)
    ∧ (∀ (m : Spyglass) (tree : CommandNode) (cmd : Str) (s : List SemTok),
      m.initialized = true → m.commandTree = some tree →
      lookupAssoc m.commandTokensCache cmd = none →
      computeCommandSemanticTokens tree cmd = some s →
      m.commandTokensCache.length ≥ MAX_CACHE_SIZE →
      getCommandSemanticTokens m cmd = some (s,
        { m with commandTokensCache :=
            m.commandTokensCache.tail ++ [(cmd, s)] })) := by
  refine ⟨?_, ?_, ?_⟩
  · intro m cmd s m' h
    have h0 := h
    unfold getCommandSemanticTokens at h
    rcases hl : lookupAssoc m.commandTokensCache cmd with _ | cached <;>
      rw [hl] at h
    · dsimp only at h
      by_cases hinit : m.initialized = true
      · rw [if_neg (by simp [hinit])] at h
        rcases ht : m.commandTree with _ | tree <;> rw [ht] at h <;>
          dsimp only at h
        · rcases hf : getFallbackSemanticTokens cmd with _ | toks <;>
            rw [hf] at h
          · cases h
          · cases h
            exact h0
        · rcases hcomp : computeCommandSemanticTokens tree cmd with _ | toks <;>
            rw [hcomp] at h
          · cases h
          · cases h
            have hnone : lookupAssoc
                (if m.commandTokensCache.length ≥ MAX_CACHE_SIZE then
                  match m.commandTokensCache with
                  | [] => ([] : List (Str × List SemTok))
                  | _ :: rest => rest
                else m.commandTokensCache) cmd = none := by
              split
              · rcases hmc : m.commandTokensCache with _ | ⟨a, rest⟩
                · rfl
                · rw [hmc] at hl
                  show lookupAssoc rest cmd = none
                  exact lookupAssoc_tail_none (a :: rest) cmd hl
              · exact hl
            have happ := lookupAssoc_append_some _ cmd s hnone
            unfold getCommandSemanticTokens
            dsimp only
            rw [happ]
      · rw [if_pos (by simp [hinit])] at h
        rcases hf : getFallbackSemanticTokens cmd with _ | toks <;>
          rw [hf] at h
        · cases h
        · cases h
          exact h0
    · dsimp only at h
      cases h
      exact h0
  · intro m cmds h
    induction cmds generalizing m with
    | nil => exact h
    | cons cmd rest ih =>
      unfold runSemanticCalls
      rcases hcall : getCommandSemanticTokens m cmd with _ | r
      · exact ih m h
      · rcases r with ⟨s, m'⟩
        exact ih m' (getCommandSemanticTokens_cache_bound m cmd h s m' hcall)
  · intro m tree cmd s hinit htree hmiss hcomp hfull
    unfold getCommandSemanticTokens
    rw [hmiss]
    dsimp only
    rw [if_neg (by simp [hinit]), htree]
    dsimp only
    rw [hcomp]
    dsimp only
    rw [if_pos hfull]
    rcases hc : m.commandTokensCache with _ | ⟨a, rest⟩
    · rw [hc] at hfull
      simp [MAX_CACHE_SIZE] at hfull
    · rfl

/-- Witness for C10: with the one-literal grammar, a first call on `x`
caches its span list and the repeat call returns the identical list from
the unchanged state; and a computing call against a full cache drops the
oldest entry and appends the new one. -/
theorem C10_witness :
    (getCommandSemanticTokens
        ⟨true, some xTree, [], [(("x".data), [⟨0, 1, "keyword".data⟩])]⟩
        ("x".data)
      = some ([⟨0, 1, "keyword".data⟩],
          ⟨true, some xTree, [], [(("x".data), [⟨0, 1, "keyword".data⟩])]⟩))
    ∧ getCommandSemanticTokens ⟨true, some xTree, [], fullCache⟩ ("x".data)
      = some ([⟨0, 1, "keyword".data⟩],
          ⟨true, some xTree, [],
            fullCache.tail ++ [(("x".data), [⟨0, 1, "keyword".data⟩])]⟩) := by
  constructor
  · exact C10_cache_properties.1 xState ("x".data) _ _ rfl
  · exact C10_cache_properties.2.2 ⟨true, some xTree, [], fullCache⟩ xTree
      ("x".data) _ rfl rfl (by decide) rfl (by decide)

/-! ### Lemmas toward claim C1 -/

/-- A successful association-list lookup is a member. -/
theorem lookupAssoc_mem {α : Type} :
    ∀ (l : List (Str × α)) (k : Str) (v : α),
      lookupAssoc l k = some v → (k, v) ∈ l := by
  intro l
  induction l with
  | nil => intro k v h; cases h
  | cons a t ih =>
    intro k v h
    rcases a with ⟨k', v'⟩
    unfold lookupAssoc at h
    split_ifs at h with hk
    · cases h
      subst hk
      exact List.mem_cons_self _ _
    · exact List.mem_cons_of_mem _ (ih k v h)

/-- The property at the node itself. -/
theorem AllNodes_self {P : CommandNode → Prop} {n : CommandNode}
    (h : AllNodes P n) : P n := by
  cases h
  assumption

/-- The property descends to a child. -/
theorem AllNodes_child {P : CommandNode → Prop} {n c : CommandNode} {k : Str}
    (h : AllNodes P n) (hm : (k, c) ∈ n.children) : AllNodes P c := by
  cases h with
  | mk _ hp hc => exact hc k c hm

/-- The redirect-path walk stays inside the hereditary property. -/
theorem resolveRedirect_go_allNodes {P : CommandNode → Prop} :
    ∀ (path : List Str) (nodes : List (Str × CommandNode))
      (found : Option CommandNode),
      (∀ k c, (k, c) ∈ nodes → AllNodes P c) →
      (∀ f, found = some f → AllNodes P f) →
      ∀ r, resolveRedirect.go nodes path found = some r → AllNodes P r := by
  intro path
  induction path with
  | nil =>
    intro nodes found hnodes hfound r h
    exact hfound r h
  | cons key pt ih =>
    intro nodes found hnodes hfound r h
    unfold resolveRedirect.go at h
    rcases hl : lookupAssoc nodes key with _ | nd <;> rw [hl] at h
    · cases h
    · have hnd : AllNodes P nd := hnodes key nd (lookupAssoc_mem nodes key nd hl)
      exact ih nd.children (some nd)
        (fun k c hm => AllNodes_child hnd hm)
        (fun f hf => by cases hf; exact hnd) r h

/-- A resolved redirect target satisfies the hereditary property. -/
theorem AllNodes_resolveRedirect {P : CommandNode → Prop}
    {tree r : CommandNode} {path : List Str}
    (ht : AllNodes P tree) (h : resolveRedirect tree path = some r) :
    AllNodes P r := by
  unfold resolveRedirect at h
  exact resolveRedirect_go_allNodes path tree.children none
    (fun k c hm => AllNodes_child ht hm) (fun f hf => by cases hf) r h

/-- The node traversal continues from (after a resolving redirect) satisfies
the hereditary property. -/
theorem AllNodes_redirResolves {P : CommandNode → Prop}
    {tree child target : CommandNode}
    (ht : AllNodes P tree) (hc : AllNodes P child)
    (hr : redirResolves tree child target) : AllNodes P target := by
  unfold redirResolves at hr
  rcases hred : child.redirect with _ | path <;> rw [hred] at hr
  · dsimp only at hr
    subst hr
    exact hc
  · exact AllNodes_resolveRedirect ht hr

/-- A resolving redirect determines the walkers' redirect fallback. -/
theorem redirTarget_of_resolves {tree child target : CommandNode}
    (hr : redirResolves tree child target) :
    redirTarget tree child = target := by
  unfold redirResolves at hr
  unfold redirTarget
  rcases hred : child.redirect with _ | path
  · rw [hred] at hr
    exact (show target = child from hr).symm
  · rw [hred] at hr
    have hr' : resolveRedirect tree path = some target := hr
    show (match resolveRedirect tree path with | some r => r | none => child)
      = target
    rw [hr']

/-- The literal-match loop on a single node. -/
theorem findLiteralNode_singleton {n child : CommandNode} {tok : Str}
    (hc : childLookup n tok = some child) (ht : child.type = .literal) :
    findLiteralNode [n] tok = some child := by
  unfold findLiteralNode
  rw [hc]
  dsimp only
  rw [if_pos ht]

/-- The literal-match loop misses on a single node without a literal child
of that name. -/
theorem findLiteralNode_singleton_none {n : CommandNode} {tok : Str}
    (hnl : ∀ c, childLookup n tok = some c → c.type ≠ .literal) :
    findLiteralNode [n] tok = none := by
  unfold findLiteralNode
  rcases hc : childLookup n tok with _ | c
  · rfl
  · dsimp only
    rw [if_neg (hnl c hc)]
    rfl

/-- With at most one argument child, the first argument child found is the
argument child. -/
theorem firstArgOfChildren_uniq :
    ∀ (l : List (Str × CommandNode)) (k : Str) (c : CommandNode),
      (l.filter (fun kv => decide (kv.2.type = .argument))).length ≤ 1 →
      (k, c) ∈ l → c.type = .argument →
      findFirstArgChild.firstArgOfChildren l = some c := by
  intro l
  induction l with
  | nil => intro k c _ hm; cases hm
  | cons a t ih =>
    intro k c huni hm ht
    rcases a with ⟨k0, c0⟩
    unfold findFirstArgChild.firstArgOfChildren
    by_cases h0 : c0.type = .argument
    · rw [if_pos h0]
      rcases List.mem_cons.mp hm with heq | hmem
      · cases heq
        rfl
      · exfalso
        rw [List.filter_cons_of_pos (by simpa using h0)] at huni
        simp only [List.length_cons] at huni
        have hnil : (t.filter (fun kv => decide (kv.2.type = .argument))) = [] :=
          List.eq_nil_of_length_eq_zero (by omega)
        have : (k, c) ∈ t.filter (fun kv => decide (kv.2.type = .argument)) :=
          List.mem_filter.mpr ⟨hmem, by simpa using ht⟩
        rw [hnil] at this
        cases this
    · rw [if_neg h0]
      rcases List.mem_cons.mp hm with heq | hmem
      · cases heq
        exact absurd ht h0
      · rw [List.filter_cons_of_neg (by simpa using h0)] at huni
        exact ih k c huni hmem ht

/-- On a single node with at most one argument child, the argument-match
loop finds the (unique) argument child. -/
theorem findFirstArgChild_singleton {n child : CommandNode} {k : Str}
    (huni : uniArg n = true) (hm : (k, child) ∈ n.children)
    (ht : child.type = .argument) :
    findFirstArgChild [n] = some child := by
  unfold findFirstArgChild
  rw [firstArgOfChildren_uniq n.children k child (by simpa [uniArg] using huni)
    hm ht]

/-- `validateStep` on a single node with a literal match. -/
theorem validateStep_lit {tree : CommandNode} {regs : List (Str × List Str)}
    {n child : CommandNode} {tok : Str} {off : Nat} {hasEx : Bool}
    (hc : childLookup n tok = some child) (ht : child.type = .literal) :
    validateStep tree regs [n] tok off hasEx
      = ⟨[redirTarget tree child], true, true, 0, child.redirect.isSome,
          hasEx || child.executable, []⟩ := by
  unfold validateStep
  rw [findLiteralNode_singleton hc ht]

/-- `validateStep` on a single node with no literal match and a unique
argument child. -/
theorem validateStep_arg {tree : CommandNode} {regs : List (Str × List Str)}
    {n child : CommandNode} {tok k : Str} {off : Nat} {hasEx : Bool}
    (hnl : ∀ c, childLookup n tok = some c → c.type ≠ .literal)
    (huni : uniArg n = true) (hm : (k, child) ∈ n.children)
    (ht : child.type = .argument) :
    validateStep tree regs [n] tok off hasEx
      = ⟨[redirTarget tree child], true, false,
          getParserTokenCount (child.parser.getD []) - 1,
          child.redirect.isSome, hasEx || child.executable,
          match validateArgument regs tok child off with
          | some e => [e]
          | none => []⟩ := by
  unfold validateStep
  rw [findLiteralNode_singleton_none hnl,
    findFirstArgChild_singleton huni hm ht]

/-- One iteration of the token loop on a single node at a literal match. -/
theorem validateLoopF_step_lit (tree : CommandNode)
    (regs : List (Str × List Str)) (f : Nat) (tok : Str) (rest : List Str)
    (n child : CommandNode) (idx off : Nat) (hasEx : Bool) (errs : List CmdErr)
    (hc : childLookup n tok = some child) (ht : child.type = .literal)
    (hrun : tok ≠ "run".data) :
    validateLoopF tree regs (f + 1) (tok :: rest) [n] idx off hasEx errs
      = validateLoopF tree regs f rest [redirTarget tree child] (idx + 1)
          (off + tok.length + 1)
          (if child.redirect.isSome ∧ rest.length ≠ 0 then false
            else hasEx || child.executable) errs := by
  simp only [validateLoopF]
  rw [@validateStep_lit tree regs n child tok off hasEx hc ht]
  simp [hrun]

/-- One iteration of the token loop on a single node at an argument match. -/
theorem validateLoopF_step_arg (tree : CommandNode)
    (regs : List (Str × List Str)) (f : Nat) (tok : Str) (rest : List Str)
    (n child : CommandNode) (k : Str) (idx off : Nat) (hasEx : Bool)
    (errs : List CmdErr)
    (hnl : ∀ c, childLookup n tok = some c → c.type ≠ .literal)
    (huni : uniArg n = true) (hm : (k, child) ∈ n.children)
    (ht : child.type = .argument)
    (hrun : tok ≠ "run".data) :
    validateLoopF tree regs (f + 1) (tok :: rest) [n] idx off hasEx errs
      = validateLoopF tree regs f
          (rest.drop (getParserTokenCount (child.parser.getD []) - 1))
          [redirTarget tree child]
          (idx + 1 + (getParserTokenCount (child.parser.getD []) - 1))
          (off + tok.length + 1)
          (if child.redirect.isSome
              ∧ (rest.drop (getParserTokenCount (child.parser.getD []) - 1)).length ≠ 0
            then false else hasEx || child.executable)
          (errs ++ (match validateArgument regs tok child off with
            | some e => [e]
            | none => [])) := by
  simp only [validateLoopF]
  rw [@validateStep_arg tree regs n child tok k off hasEx hnl huni hm ht]
  simp [hrun]

/-- A token of the declared format triggers no format violation. -/
theorem formatOk_no_violation (parser : Option Str) (token : Str)
    (h : formatOk parser token) : formatViolationOpt parser token = false := by
  rcases parser with _ | p
  · rfl
  · have h' : (p = "brigadier:integer".data → intRe token = true)
        ∧ ((p = "brigadier:float".data ∨ p = "brigadier:double".data) →
            numRe token = true)
        ∧ (p = "brigadier:bool".data →
            token = "true".data ∨ token = "false".data)
        ∧ (p = "minecraft:gamemode".data →
            listMem validateArgumentFormat.gamemodes token = true) := h
    show formatViolationB p token = false
    unfold formatViolationB
    split_ifs with h1 h2 h3 h4
    · simp [h'.1 h1]
    · simp [h'.2.1 h2]
    · rcases h'.2.2.1 h3 with ht | hf
      · simp [ht]
      · simp [hf]
    · simp [h'.2.2.2 h4]
    · rfl

/-- On a token of the declared format, `validateArgument` never emits an
`error`-severity entry. -/
theorem validateArgument_formatOk_not_error
    (regs : List (Str × List Str)) (token : Str) (node : CommandNode)
    (off : Nat) (e : CmdErr)
    (hfmt : formatOk node.parser token)
    (h : validateArgument regs token node off = some e) :
    e.severity ≠ .error := by
  have hs := validateArgument_severity regs token node off e h
  intro he
  have hv := hs.2.mp he
  rw [formatOk_no_violation node.parser token hfmt] at hv
  cases hv

/-- The error list one argument match contributes is free of
`error`-severity entries when the token has the declared format. -/
theorem stepErrs_no_error (regs : List (Str × List Str)) (token : Str)
    (child : CommandNode) (off : Nat)
    (hfmt : formatOk child.parser token) :
    ∀ e ∈ (match validateArgument regs token child off with
      | some e => [e]
      | none => []), e.severity ≠ .error := by
  intro e he
  rcases hv : validateArgument regs token child off with _ | e' <;>
    rw [hv] at he
  · exact absurd he (List.not_mem_nil e)
  · have heq : e = e' := List.mem_singleton.mp he
    subst heq
    exact validateArgument_formatOk_not_error regs token child off e hfmt hv

/-- Soundness of the token loop on accepted token sequences: over a grammar
whose nodes all have at most one argument child, an accepted token sequence
free of the `run` keyword drives the loop to completion with no
`error`-severity entry added and a final node set containing an executable
node. -/
theorem validateLoopF_accepted (tree : CommandNode)
    (huni : AllNodes (fun x => uniArg x = true) tree)
    (regs : List (Str × List Str)) (tokens : List Str) (n : CommandNode)
    (hacc : Accepted tree n tokens) :
    AllNodes (fun x => uniArg x = true) n →
    ("run".data) ∉ tokens →
    ∀ (fuel idx off : Nat) (hasEx : Bool) (errs : List CmdErr),
      tokens.length < fuel →
      (∀ e ∈ errs, e.severity ≠ .error) →
      ∃ errs' final hasEx',
        validateLoopF tree regs fuel tokens [n] idx off hasEx errs
          = some (errs', final, hasEx')
        ∧ (∀ e ∈ errs', e.severity ≠ .error)
        ∧ final.any (fun x => x.executable) = true := by
  induction hacc with
  | done m hex =>
    intro _ _ fuel idx off hasEx errs hfuel herrs
    rcases fuel with _ | f
    · omega
    · exact ⟨errs, [m], hasEx, rfl, herrs, by simp [hex]⟩
  | lit m tok rest child target hc ht hr hrest ih =>
    intro hAll hrun fuel idx off hasEx errs hfuel herrs
    rcases fuel with _ | f
    · omega
    · have htok : tok ≠ "run".data := by
        intro h
        apply hrun
        rw [← h]
        exact List.mem_cons_self _ _
      have hrun' : ("run".data) ∉ rest := fun h =>
        hrun (List.mem_cons_of_mem _ h)
      have hc' : lookupAssoc m.children tok = some child := hc
      have hAllc : AllNodes (fun x => uniArg x = true) child :=
        AllNodes_child hAll (lookupAssoc_mem m.children tok child hc')
      have hAllt : AllNodes (fun x => uniArg x = true) target :=
        AllNodes_redirResolves huni hAllc hr
      rw [validateLoopF_step_lit tree regs f tok rest m child idx off hasEx
        errs hc ht htok]
      rw [redirTarget_of_resolves hr]
      exact ih hAllt hrun' f (idx + 1) (off + tok.length + 1) _ errs
        (by simp only [List.length_cons] at hfuel; omega) herrs
  | arg m tok extras rest k child target hnl hm ht hfmt hex hr hrest ih =>
    intro hAll hrun fuel idx off hasEx errs hfuel herrs
    rcases fuel with _ | f
    · omega
    · have htok : tok ≠ "run".data := by
        intro h
        apply hrun
        rw [← h]
        exact List.mem_cons_self _ _
      have hrun' : ("run".data) ∉ rest := fun h =>
        hrun (List.mem_cons_of_mem _ (List.mem_append_right _ h))
      have hAllc : AllNodes (fun x => uniArg x = true) child :=
        AllNodes_child hAll hm
      have hAllt : AllNodes (fun x => uniArg x = true) target :=
        AllNodes_redirResolves huni hAllc hr
      have hu : uniArg m = true := AllNodes_self hAll
      rw [validateLoopF_step_arg tree regs f tok (extras ++ rest) m child k
        idx off hasEx errs hnl hu hm ht htok]
      rw [redirTarget_of_resolves hr]
      have hdrop : (extras ++ rest).drop
          (getParserTokenCount (child.parser.getD []) - 1) = rest := by
        rw [← hex]
        exact List.drop_left extras rest
      rw [hdrop]
      exact ih hAllt hrun' f _ _ _ _
        (by simp only [List.length_cons, List.length_append] at hfuel; omega)
        (by
          intro e he
          rcases List.mem_append.mp he with h1 | h2
          · exact herrs e h1
          · exact stepErrs_no_error regs tok child off hfmt e h2)

/-- C1 (counterexample): three grammar-accepted token sequences on which
`validateCommand` reports an `error`-severity diagnostic, refuting the claim
as stated. (1) A root whose only child is an integer argument accepts `5`,
but the walker requires the first token to be a literal child name and
reports `Unknown command`. (2) Under the literal `foo` with integer child
`count` and boolean child `msg`, the grammar accepts `foo true` via `msg`,
but the walker validates `true` against the first argument child `count` and
reports a type error. (3) A grammar containing a literal named `run` accepts
`a run c`, but the walker resets to the root at the token `run` and reports
`Unexpected argument: c`. -/
theorem C1_counterexample :
    (Accepted treeRootArg treeRootArg [("5".data)]
      ∧ validateCommand stateRootArg ("5".data) false
          = some [⟨0, 1, "Unknown command: 5".data, .error⟩])
    ∧ (Accepted treeTwoArgs treeTwoArgs [("foo".data), ("true".data)]
      ∧ validateCommand stateTwoArgs ("foo true".data) false
          = some [⟨4, 4, "Expected integer, got: true".data, .error⟩])
    ∧ (Accepted treeRunLit treeRunLit [("a".data), ("run".data), ("c".data)]
      ∧ validateCommand stateRunLit ("a run c".data) false
          = some [⟨6, 1, "Unexpected argument: c. Expected: a".data, .error⟩]) := by
  refine ⟨⟨?_, by decide⟩, ⟨?_, by decide⟩, ⟨?_, by decide⟩⟩
  · exact Accepted.arg treeRootArg ("5".data) [] [] ("n".data)
      rootIntArg rootIntArg
      (fun c hc => by
        rw [show childLookup treeRootArg ("5".data) = none from rfl] at hc
        cases hc)
      (List.mem_singleton.mpr rfl) rfl
      ⟨fun _ => by decide, fun hp => absurd hp (by decide),
        fun hp => absurd hp (by decide), fun hp => absurd hp (by decide)⟩
      (by decide) rfl (Accepted.done rootIntArg rfl)
  · exact Accepted.lit treeTwoArgs ("foo".data) [("true".data)]
      fooNode fooNode rfl rfl rfl
      (Accepted.arg fooNode ("true".data) [] [] ("msg".data) msgArg msgArg
        (fun c hc => by
          rw [show childLookup fooNode ("true".data) = none from rfl] at hc
          cases hc)
        (List.mem_cons_of_mem _ (List.mem_singleton.mpr rfl)) rfl
        ⟨fun hp => absurd hp (by decide), fun hp => absurd hp (by decide),
          fun _ => Or.inl rfl, fun hp => absurd hp (by decide)⟩
        (by decide) rfl (Accepted.done msgArg rfl))
  · exact Accepted.lit treeRunLit ("a".data) [("run".data), ("c".data)]
      aNode aNode rfl rfl rfl
      (Accepted.lit aNode ("run".data) [("c".data)]
        runNode runNode rfl rfl rfl
        (Accepted.lit runNode ("c".data) [] cNode cNode rfl rfl rfl
          (Accepted.done cNode rfl)))

/-- The escape guard of the tokenizer is constantly true (see C5). -/
theorem prevNotEscapePair_always (prev : Option Char) :
    prevNotEscapePair prev = true := by
  rcases prev with _ | c
  · rfl
  · simp [prevNotEscapePair]

/-- The previous-character argument never influences the tokenizer. -/
theorem tokenizeAux_prev_irrel (text : Str) (p1 p2 : Option Char)
    (cur : Str) (ins : Bool) (dep : Int) (acc : List Str) :
    tokenizeAux text p1 cur ins dep acc
      = tokenizeAux text p2 cur ins dep acc := by
  rcases text with _ | ⟨c, rest⟩
  · rfl
  · simp only [tokenizeAux, prevNotEscapePair_always, and_true]

/-- A plain character takes the accumulation branch of the tokenizer. -/
theorem tokenizeAux_plain_char (c : Char) (rest : Str) (prev : Option Char)
    (cur : Str) (acc : List Str)
    (h1 : c ≠ '"') (h2 : c ≠ '{') (h3 : c ≠ '[') (h4 : c ≠ '}') (h5 : c ≠ ']')
    (h6 : c ≠ ' ') :
    tokenizeAux (c :: rest) prev cur false 0 acc
      = tokenizeAux rest (some c) (cur ++ [c]) false 0 acc := by
  simp [tokenizeAux, h1, h2, h3, h4, h5, h6]

/-- The tokenizer consumes a whole space-free plain token into the current
accumulator. -/
theorem tokenizeAux_consume :
    ∀ (t : Str),
      (∀ c ∈ t, c ≠ '"' ∧ c ≠ '{' ∧ c ≠ '[' ∧ c ≠ '}' ∧ c ≠ ']'
        ∧ isJsWs c = false) →
      ∀ (r : Str) (prev pv : Option Char) (cur : Str) (acc : List Str),
        tokenizeAux (t ++ r) prev cur false 0 acc
          = tokenizeAux r pv (cur ++ t) false 0 acc := by
  intro t
  induction t with
  | nil =>
    intro _ r prev pv cur acc
    simpa using tokenizeAux_prev_irrel r prev pv cur false 0 acc
  | cons c t ih =>
    intro hp r prev pv cur acc
    have hc := hp c (List.mem_cons_self _ _)
    have hsp : c ≠ ' ' := by
      intro h
      rw [h] at hc
      exact absurd hc.2.2.2.2.2 (by simp [isJsWs])
    rw [List.cons_append, tokenizeAux_plain_char c (t ++ r) prev cur acc
      hc.1 hc.2.1 hc.2.2.1 hc.2.2.2.1 hc.2.2.2.2.1 hsp]
    rw [ih (fun d hd => hp d (List.mem_cons_of_mem _ hd)) r (some c) pv
      (cur ++ [c]) acc]
    rw [List.append_assoc]
    rfl

/-- The tokenizer applied to space-joined plain tokens appends exactly those
tokens. -/
theorem tokenizeAux_join :
    ∀ (tokens : List Str),
      (∀ t ∈ tokens, PlainTok t) →
      ∀ (prev : Option Char) (acc : List Str),
        tokenizeAux (joinSep (" ".data) tokens) prev [] false 0 acc
          = acc ++ tokens := by
  intro tokens
  induction tokens with
  | nil =>
    intro _ prev acc
    simp [joinSep, tokenizeAux]
  | cons t rest ih =>
    intro hp prev acc
    rcases rest with _ | ⟨t2, rest2⟩
    · have hpt := hp t (List.mem_cons_self _ _)
      have h := tokenizeAux_consume t hpt.2 [] prev prev [] acc
      simp only [List.append_nil, List.nil_append] at h
      show tokenizeAux t prev [] false 0 acc = acc ++ [t]
      rw [h]
      simp [tokenizeAux, List.length_pos.mpr hpt.1]
    · have hpt := hp t (List.mem_cons_self _ _)
      have hlen : t.length > 0 := List.length_pos.mpr hpt.1
      show tokenizeAux ((t ++ (" ".data)) ++ joinSep (" ".data) (t2 :: rest2))
          prev [] false 0 acc = acc ++ (t :: t2 :: rest2)
      rw [List.append_assoc]
      rw [tokenizeAux_consume t hpt.2
        ((" ".data) ++ joinSep (" ".data) (t2 :: rest2)) prev prev [] acc]
      simp only [List.nil_append]
      have hstep : tokenizeAux
          ((' ' : Char) :: joinSep (" ".data) (t2 :: rest2)) prev t
          false 0 acc
          = tokenizeAux (joinSep (" ".data) (t2 :: rest2)) (some ' ') []
              false 0 (acc ++ [t]) := by
        simp [tokenizeAux, hlen]
      rw [show (" ".data) ++ joinSep (" ".data) (t2 :: rest2)
          = (' ' : Char) :: joinSep (" ".data) (t2 :: rest2) from rfl]
      rw [hstep]
      rw [ih (fun d hd => hp d (List.mem_cons_of_mem _ hd)) (some ' ')
        (acc ++ [t])]
      simp

/-- The primary tokenizer recovers a plain token sequence from its
space-join. -/
theorem tokenize_join (tokens : List Str) (hp : ∀ t ∈ tokens, PlainTok t) :
    tokenize (joinTokens tokens) = tokens := by
  unfold tokenize joinTokens
  simpa using tokenizeAux_join tokens hp none []

/-- `dropWhile` is the identity when the head fails the predicate. -/
theorem dropWhile_head_false {p : Char → Bool} :
    ∀ (s : Str), (∀ c, s.head? = some c → p c = false) →
      s.dropWhile p = s := by
  intro s h
  rcases s with _ | ⟨c, r⟩
  · rfl
  · rw [List.dropWhile_cons, if_neg (by simp [h c rfl])]

/-- A space-join of non-empty tokens is non-empty. -/
theorem joinTokens_ne_nil :
    ∀ (tokens : List Str), tokens ≠ [] → (∀ t ∈ tokens, t ≠ []) →
      joinTokens tokens ≠ [] := by
  intro tokens hne hts
  rcases tokens with _ | ⟨t, rest⟩
  · exact absurd rfl hne
  · rcases rest with _ | ⟨t2, rest2⟩
    · exact hts t (List.mem_cons_self _ _)
    · have ht := hts t (List.mem_cons_self _ _)
      rcases t with _ | ⟨c, tr⟩
      · exact absurd rfl ht
      · show (((c :: tr) ++ (" ".data)) ++ joinSep (" ".data) (t2 :: rest2))
          ≠ []
        simp

/-- The head of a space-join is the head of the first token. -/
theorem joinTokens_head (t : Str) (rest : List Str) (ht : t ≠ []) :
    (joinTokens (t :: rest)).head? = t.head? := by
  rcases t with _ | ⟨c, tr⟩
  · exact absurd rfl ht
  · rcases rest with _ | ⟨t2, rest2⟩
    · rfl
    · show ((((c :: tr) ++ (" ".data)) ++ joinSep (" ".data)
        (t2 :: rest2))).head? = _
      simp

/-- The last character of a space-join of plain tokens is not whitespace. -/
theorem joinTokens_rev_head :
    ∀ (tokens : List Str), (∀ t ∈ tokens, PlainTok t) →
      ∀ c, (joinTokens tokens).reverse.head? = some c →
        isJsWs c = false := by
  intro tokens
  induction tokens with
  | nil =>
    intro _ c hc
    cases hc
  | cons t rest ih =>
    intro hp c hc
    rcases rest with _ | ⟨t2, rest2⟩
    · have hpt := hp t (List.mem_cons_self _ _)
      have hc' : t.reverse.head? = some c := hc
      have hcm : c ∈ t.reverse := by
        rcases hrev : t.reverse with _ | ⟨c0, r0⟩
        · rw [hrev] at hc'
          cases hc'
        · rw [hrev] at hc'
          have h0 : c0 = c := Option.some.inj hc'
          rw [← h0]
          exact List.mem_cons_self _ _
      exact (hpt.2 c (List.mem_reverse.mp hcm)).2.2.2.2.2
    · have hne : joinTokens (t2 :: rest2) ≠ [] :=
        joinTokens_ne_nil (t2 :: rest2) (List.cons_ne_nil _ _)
          (fun u hu => (hp u (List.mem_cons_of_mem _ hu)).1)
      have hc' : (((t ++ (" ".data)) ++ joinTokens (t2 :: rest2)).reverse).head?
          = some c := hc
      rw [List.reverse_append] at hc'
      rcases hjr : (joinTokens (t2 :: rest2)).reverse with _ | ⟨c0, r0⟩
      · exact absurd (by simpa using hjr) hne
      · rw [hjr] at hc'
        have h0 : c0 = c := Option.some.inj hc'
        exact ih (fun u hu => hp u (List.mem_cons_of_mem _ hu)) c
          (by rw [hjr, h0]; rfl)

/-- `trim` is the identity on strings whose two ends are not whitespace. -/
theorem jsTrim_of_ends (s : Str)
    (h1 : ∀ c, s.head? = some c → isJsWs c = false)
    (h2 : ∀ c, s.reverse.head? = some c → isJsWs c = false) :
    jsTrim s = s := by
  unfold jsTrim
  rw [dropWhile_head_false s h1]
  rw [dropWhile_head_false s.reverse h2]
  exact List.reverse_reverse s

/-- `trim` is the identity on a space-join of plain tokens. -/
theorem jsTrim_join (tokens : List Str) (hne : tokens ≠ [])
    (hp : ∀ t ∈ tokens, PlainTok t) :
    jsTrim (joinTokens tokens) = joinTokens tokens := by
  apply jsTrim_of_ends
  · intro c hc
    rcases tokens with _ | ⟨t, rest⟩
    · exact absurd rfl hne
    · have hpt := hp t (List.mem_cons_self _ _)
      rw [joinTokens_head t rest hpt.1] at hc
      have hcm : c ∈ t := by
        rcases t with _ | ⟨c0, tr⟩
        · cases hc
        · have h0 : c0 = c := Option.some.inj hc
          rw [← h0]
          exact List.mem_cons_self _ _
      exact (hpt.2 c hcm).2.2.2.2.2
  · exact joinTokens_rev_head tokens hp

/-- A space-join of plain tokens whose first token does not start with a
slash does not start with a slash. -/
theorem jsStartsWith_join_slash (t : Str) (rest : List Str)
    (ht : t ≠ []) (hs : t.head? ≠ some '/') :
    jsStartsWith (joinTokens (t :: rest)) ("/".data) = false := by
  have hh := joinTokens_head t rest ht
  rcases hj : joinTokens (t :: rest) with _ | ⟨c, r⟩
  · rfl
  · rw [hj] at hh
    have hc : t.head? = some c := by
      rw [← hh]
      rfl
    have hcne : c ≠ '/' := fun h => hs (by rw [hc, h])
    show (List.isPrefixOf ("/".data) (c :: r)) = false
    simp [List.isPrefixOf, beq_eq_false_iff_ne]
    exact fun h => hcne h.symm

/-- `validateCommand` on the empty command of an initialized manager. -/
theorem validateCommand_nil_cmd (m : Spyglass) (tree : CommandNode)
    (hinit : m.initialized = true) (htree : m.commandTree = some tree) :
    validateCommand m [] false = some [] := by
  unfold validateCommand
  rw [hinit, htree]
  rfl

/-- `validateCommand` reduced to its token loop: on an initialized manager,
a slash-free already-trimmed command tokenizing to a known-command token
sequence on which the loop finishes with an executable node is validated to
exactly the loop's error list. -/
theorem validateCommand_eq_loop (m : Spyglass) (tree : CommandNode)
    (command : Str)
    (hinit : m.initialized = true) (htree : m.commandTree = some tree)
    (hslash : jsStartsWith command ("/".data) = false)
    (htrim : jsTrim command = command)
    (t0 : Str) (rest0 : List Str)
    (htok : tokenize command = t0 :: rest0)
    (c0 : CommandNode) (hc0 : childLookup tree t0 = some c0)
    (errs' : List CmdErr) (final : List CommandNode) (hasEx' : Bool)
    (hloopEq : validateLoopF tree m.registries ((t0 :: rest0).length + 1)
        (t0 :: rest0) [tree] 0 0 false [] = some (errs', final, hasEx'))
    (hany : final.any (fun x => x.executable) = true) :
    validateCommand m command false = some errs' := by
  have hne : command ≠ [] := by
    intro h
    rw [h] at htok
    cases htok
  unfold validateCommand
  rw [hinit, htree]
  simp only [not_true, Bool.not_eq_true, if_neg, hslash, htrim, htok, hc0]
  simp only [List.length_cons] at hloopEq
  simp [htrim, htok, hc0, hne, hloopEq, hany]

/-- C1 (amended): over a grammar whose nodes all have at most one
argument-typed child, a grammar-accepted sequence of plain tokens that
avoids the keyword `run`, does not start with a slash and whose first token
names a child of the root is validated with no `error`-severity diagnostic:
`validateCommand` on the space-joined command returns an error list whose
entries (if any) are all warnings. -/
theorem C1_amended_accepted_no_error_severity
    (m : Spyglass) (tree : CommandNode) (tokens : List Str)
    (hinit : m.initialized = true) (htree : m.commandTree = some tree)
    (huni : AllNodes (fun x => uniArg x = true) tree)
    (hacc : Accepted tree tree tokens)
    (hplain : ∀ t ∈ tokens, PlainTok t)
    (hrun : ("run".data) ∉ tokens)
    (hfirst : ∀ t0, tokens.head? = some t0 →
      t0.head? ≠ some '/' ∧ (childLookup tree t0).isSome = true) :
    ∃ errs, validateCommand m (joinTokens tokens) false = some errs
      ∧ ∀ e ∈ errs, e.severity ≠ .error := by
  rcases tokens with _ | ⟨t0, rest0⟩
  · exact ⟨[], validateCommand_nil_cmd m tree hinit htree,
      fun e he => absurd he (List.not_mem_nil e)⟩
  · have hfst := hfirst t0 rfl
    have hpt0 := hplain t0 (List.mem_cons_self _ _)
    have htrim := jsTrim_join (t0 :: rest0) (List.cons_ne_nil _ _) hplain
    have htok := tokenize_join (t0 :: rest0) hplain
    have hslash := jsStartsWith_join_slash t0 rest0 hpt0.1 hfst.1
    rcases Option.isSome_iff_exists.mp hfst.2 with ⟨c0, hc0⟩
    rcases validateLoopF_accepted tree huni m.registries (t0 :: rest0)
        tree hacc huni hrun ((t0 :: rest0).length + 1) 0 0 false []
        (by omega) (fun e he => absurd he (List.not_mem_nil e))
      with ⟨errs', final, hasEx', hloopEq, herr', hany'⟩
    exact ⟨errs', validateCommand_eq_loop m tree (joinTokens (t0 :: rest0))
      hinit htree hslash htrim t0 rest0 htok c0 hc0 errs' final hasEx'
      hloopEq hany', herr'⟩

/-- Witness for the amended C1 theorem: the `give` grammar of §8 accepts
`give @s minecraft:stone`, and `validateCommand` reports no
`error`-severity diagnostic on the joined command. -/
theorem C1_witness :
    ∃ errs, validateCommand giveState
        (joinTokens [("give".data), ("@s".data), ("minecraft:stone".data)])
        false = some errs
      ∧ ∀ e ∈ errs, e.severity ≠ .error := by
  have hItem : AllNodes (fun x => uniArg x = true) itemNode :=
    AllNodes.mk _ (by decide)
      (fun k c hm =>
        absurd (show (k, c) ∈ ([] : List (Str × CommandNode)) from hm)
          (List.not_mem_nil _))
  have hTargets : AllNodes (fun x => uniArg x = true) targetsNode :=
    AllNodes.mk _ (by decide) (fun k c hm => by
      have hm' : (k, c) ∈ [(("item".data), itemNode)] := hm
      have h := List.mem_singleton.mp hm'
      injection h with h1 h2
      subst h2
      exact hItem)
  have hGive : AllNodes (fun x => uniArg x = true) giveNode :=
    AllNodes.mk _ (by decide) (fun k c hm => by
      have hm' : (k, c) ∈ [(("targets".data), targetsNode)] := hm
      have h := List.mem_singleton.mp hm'
      injection h with h1 h2
      subst h2
      exact hTargets)
  have hTree : AllNodes (fun x => uniArg x = true) giveTree :=
    AllNodes.mk _ (by decide) (fun k c hm => by
      have hm' : (k, c) ∈ [(("give".data), giveNode)] := hm
      have h := List.mem_singleton.mp hm'
      injection h with h1 h2
      subst h2
      exact hGive)
  have hAcc : Accepted giveTree giveTree
      [("give".data), ("@s".data), ("minecraft:stone".data)] :=
    Accepted.lit giveTree ("give".data)
      [("@s".data), ("minecraft:stone".data)] giveNode giveNode rfl rfl rfl
      (Accepted.arg giveNode ("@s".data) [] [("minecraft:stone".data)]
        ("targets".data) targetsNode targetsNode
        (fun c hc => by
          rw [show childLookup giveNode ("@s".data) = none from rfl] at hc
          cases hc)
        (List.mem_singleton.mpr rfl) rfl
        ⟨fun hp => absurd hp (by decide), fun hp => absurd hp (by decide),
          fun hp => absurd hp (by decide), fun hp => absurd hp (by decide)⟩
        (by decide) rfl
        (Accepted.arg targetsNode ("minecraft:stone".data) [] []
          ("item".data) itemNode itemNode
          (fun c hc => by
            rw [show childLookup targetsNode ("minecraft:stone".data) = none
              from rfl] at hc
            cases hc)
          (List.mem_singleton.mpr rfl) rfl
          ⟨fun hp => absurd hp (by decide), fun hp => absurd hp (by decide),
            fun hp => absurd hp (by decide), fun hp => absurd hp (by decide)⟩
          (by decide) rfl (Accepted.done itemNode rfl)))
  exact C1_amended_accepted_no_error_severity giveState giveTree
    [("give".data), ("@s".data), ("minecraft:stone".data)]
    rfl rfl hTree hAcc
    (by
      intro t ht
      simp only [List.mem_cons, List.not_mem_nil, or_false] at ht
      rcases ht with rfl | rfl | rfl <;> exact ⟨by decide, by decide⟩)
    (by decide)
    (fun t0 ht0 => by
      have h : ("give".data) = t0 := Option.some.inj ht0
      subst h
      exact ⟨by decide, by decide⟩)

end Comet
